import Mathlib

/-!
Verification of the payment-attempt data model and derived-view computation
layer of the `cloth-result-visualizer` repository (a browser-based visualizer
for Lightning-Network payment-simulation output).

The embedding below is a shallow translation of the TypeScript source:

* `src/types.ts` — the record types (`RouteHop`, `AttemptHistory`, `Payment`,
  `Edge`, `TimelineEvent`);
* `src/utils/dataParser.ts` — `parsePayments` (attempt-history decode policy
  and the shard back-reference pass), `parseConfig`, and
  `generateTimelineEvents`;
* `src/components/PaymentTree.tsx` — `buildTree` and `countStatus`
  (the MPP shard-forest builder and its subtree success/fail tally);
* `src/components/EdgeList.tsx` — the per-edge usage/failure aggregation
  (`edgeStats`);
* `src/components/NetworkGraph.tsx` — the highlight resolver
  (`highlightedEdges` / `highlightedNodes` / `errorEdges`).

Modelling conventions:

* JavaScript numbers that hold identifiers, times and amounts are modelled as
  `Int`.  `NaN` never arises in the modelled fragments (the guards the code
  places on them are translated literally); floating-point-valued fields
  (`totFlows`, `culThreshold` and the `parseFloat` config keys) are outside
  the embedding and are omitted — no claim mentions them.
* A JavaScript `Map` built by repeated `set` is modelled as a last-write-wins
  lookup over the insertion list (`lookupPayment`, `lookupEdge`) or as a
  total function `Int → Nat` updated pointwise (the counting maps of
  `EdgeList`, where `get(k) || 0` reads the default `0`).
* `Array.prototype.sort` with comparator `(a, b) => a.time - b.time` is a
  stable sort by `time` in ECMAScript; it is modelled by a stable insertion
  sort (`sortByTime`).  Any two stable sorts by the same key agree
  extensionally, so this is the function the code computes.
* `buildTree` in the source recurses through arbitrary shard-id references
  and diverges on cyclic input; the embedding adds explicit fuel and returns
  `none` when the fuel is exhausted, so `buildTree fuel pm p d = some t`
  reads "the source recursion terminates and produces `t`".
-/

namespace CRV

/-- One forwarding step within a payment attempt (`RouteHop` in
`src/types.ts`).  `group_cap` is nullable in the source. -/
structure RouteHop where
  edge_id : Int
  from_node_id : Int
  to_node_id : Int
  sent_amt : Int
  edge_cap : Int
  channel_cap : Int
  group_cap : Option Int
  channel_update : Int
deriving Repr, DecidableEq

/-- One routing attempt of a payment (`AttemptHistory` in `src/types.ts`).
`is_succeeded` is a number in the source, tested by truthiness (`≠ 0`);
`route` absent in the decoded JSON behaves exactly like an empty route in
every use site (`route && route.length > 0`, `route?.map(..) || []`,
`route || []`), so it is modelled as a plain list. -/
structure AttemptHistory where
  attempts : Int
  is_succeeded : Int
  end_time : Int
  error_edge : Int
  error_type : Int
  route : List RouteHop
deriving Repr, DecidableEq

/-- A payment record (`Payment` in `src/types.ts`).  The derived
`childShards` back-reference is not a field here: it is navigation state,
reconstructed by `childShards` below exactly as the second pass of
`parsePayments` assigns it. -/
structure Payment where
  id : Int
  senderId : Int
  receiverId : Int
  amount : Int
  startTime : Int
  maxFeeLimit : Int
  endTime : Int
  mpp : Int
  isShard : Bool
  parentPaymentId : Int
  shard1Id : Int
  shard2Id : Int
  isSuccess : Bool
  isRolledBack : Bool
  noBalanceCount : Int
  offlineNodeCount : Int
  timeoutExp : Int
  attempts : Int
  route : List Int
  totalFee : Int
  attemptsHistory : List AttemptHistory
deriving Repr, DecidableEq

/-- A directed forwarding edge (`Edge` in `src/types.ts`).  The two
floating-point fields `totFlows` and `culThreshold` are omitted (no claim
touches them). -/
structure Edge where
  id : Int
  channelId : Int
  counterEdgeId : Int
  fromNodeId : Int
  toNodeId : Int
  balance : Int
  feeBase : Int
  feeProportional : Int
  minHtlc : Int
  timelock : Int
  isClosed : Bool
  channelUpdates : Int
  group : Option String
deriving Repr, DecidableEq

/-- The payment-id lookup map (`paymentMap`): a `Map<number, Payment>` filled
by iterating the collection and calling `set`, so a duplicated id resolves to
the payment occurring last. -/
def lookupPayment (payments : List Payment) (i : Int) : Option Payment :=
  payments.foldl (fun acc p => if p.id = i then some p else acc) none

/-- The edge-id lookup map (`edgeMap` in `NetworkGraph.tsx`), same
last-write-wins `Map` discipline. -/
def lookupEdge (edges : List Edge) (i : Int) : Option Edge :=
  edges.foldl (fun acc e => if e.id = i then some e else acc) none

/-- The second pass of `parsePayments`: resolve `shard1Id`/`shard2Id` through
the payment map; an id `< 0` or one that does not resolve contributes no
child; the `childShards` field is assigned only when the resolved list is
non-empty (otherwise it stays `undefined`, here `none`). -/
def childShards (payments : List Payment) (p : Payment) : Option (List Payment) :=
  if 0 ≤ p.shard1Id ∨ 0 ≤ p.shard2Id then
    let shards :=
      (if 0 ≤ p.shard1Id then (lookupPayment payments p.shard1Id).toList else []) ++
      (if 0 ≤ p.shard2Id then (lookupPayment payments p.shard2Id).toList else [])
    if shards.isEmpty then none else some shards
  else none

/-- A node of the MPP shard forest (`TreeNode` in `PaymentTree.tsx`). -/
inductive TreeNode where
  | mk (payment : Payment) (children : List TreeNode) (depth : Int)
       (totalLeafAmount : Int) (leafCount : Int)

def TreeNode.payment : TreeNode → Payment
  | .mk p _ _ _ _ => p

def TreeNode.children : TreeNode → List TreeNode
  | .mk _ cs _ _ _ => cs

def TreeNode.depth : TreeNode → Int
  | .mk _ _ d _ _ => d

def TreeNode.totalLeafAmount : TreeNode → Int
  | .mk _ _ _ a _ => a

def TreeNode.leafCount : TreeNode → Int
  | .mk _ _ _ _ l => l

/-- One `if (payment.shardNId >= 0) { ... }` block of `buildTree`: a negative
or unresolvable shard id contributes no child (`some []`); a resolvable one
contributes its recursively built subtree (`rec` is the recursive call,
abstracted so the block can be analysed on its own). -/
def buildChild (rec : Payment → Int → Option TreeNode) (pm : Int → Option Payment)
    (sid depth : Int) : Option (List TreeNode) :=
  if 0 ≤ sid then
    match pm sid with
    | some shard =>
      match rec shard (depth + 1) with
      | some t => some [t]
      | none => none
    | none => some []
  else some []

/-- `buildTree` from `PaymentTree.tsx`: resolve up to two shard children
through the payment map, accumulate their `totalLeafAmount`/`leafCount`,
and override both with `amount`/`1` when no child resolved.  The source
recursion has no termination guard; `fuel` makes divergence observable as
`none`, which is propagated (a `none` child aborts the whole build, since in
the source that recursion would never have returned). -/
def buildTree : Nat → (Int → Option Payment) → Payment → Int → Option TreeNode
  | 0, _, _, _ => none
  | Nat.succ fuel, pm, payment, depth =>
    match buildChild (fun sh d2 => buildTree fuel pm sh d2) pm payment.shard1Id depth,
          buildChild (fun sh d2 => buildTree fuel pm sh d2) pm payment.shard2Id depth with
    | some cs1, some cs2 =>
      if (cs1 ++ cs2).isEmpty then
        some (TreeNode.mk payment (cs1 ++ cs2) depth payment.amount 1)
      else
        some (TreeNode.mk payment (cs1 ++ cs2) depth
          (((cs1 ++ cs2).map TreeNode.totalLeafAmount).sum)
          (((cs1 ++ cs2).map TreeNode.leafCount).sum))
    | _, _ => none

mutual
/-- `countStatus` from `PaymentTree.tsx`: a childless node tallies its own
success flag as `(1,0)` or `(0,1)`; a node with children sums the children's
tallies (the node itself is not counted). -/
def countStatus : TreeNode → Int × Int
  | .mk p cs _ _ _ =>
    if cs.isEmpty then (if p.isSuccess then (1, 0) else (0, 1))
    else countStatusList cs

def countStatusList : List TreeNode → Int × Int
  | [] => (0, 0)
  | c :: cs =>
    let s := countStatus c
    let t := countStatusList cs
    (s.1 + t.1, s.2 + t.2)
end

mutual
/-- All nodes of a tree: the node itself followed by every node of every
child subtree. -/
def TreeNode.allNodes : TreeNode → List TreeNode
  | .mk p cs d a l => .mk p cs d a l :: allNodesList cs

def allNodesList : List TreeNode → List TreeNode
  | [] => []
  | c :: cs => c.allNodes ++ allNodesList cs
end

/-- The per-node invariant claimed of the forest builder: a childless node is
a leaf with `leafCount = 1`, `totalLeafAmount` its own amount, and tally
`(1,0)`/`(0,1)` by its own success flag; a node with children carries exactly
the sums of its children's `leafCount`, `totalLeafAmount` and tallies. -/
def nodeInv (n : TreeNode) : Prop :=
  if n.children.isEmpty then
    n.leafCount = 1 ∧ n.totalLeafAmount = n.payment.amount ∧
      countStatus n = (if n.payment.isSuccess then ((1 : Int), (0 : Int)) else (0, 1))
  else
    n.leafCount = (n.children.map TreeNode.leafCount).sum ∧
    n.totalLeafAmount = (n.children.map TreeNode.totalLeafAmount).sum ∧
    countStatus n = (n.children.map countStatus).sum

instance (n : TreeNode) : Decidable (nodeInv n) := by
  unfold nodeInv; infer_instance

theorem mem_allNodesList {n : TreeNode} {cs : List TreeNode} :
    n ∈ allNodesList cs ↔ ∃ c ∈ cs, n ∈ c.allNodes := by
  induction cs with
  | nil => simp [allNodesList]
  | cons c cs ih => simp [allNodesList, ih]

theorem mem_allNodes {n : TreeNode} {p : Payment} {cs : List TreeNode} {d a l : Int} :
    n ∈ (TreeNode.mk p cs d a l).allNodes ↔
      n = TreeNode.mk p cs d a l ∨ ∃ c ∈ cs, n ∈ c.allNodes := by
  simp [TreeNode.allNodes, mem_allNodesList]

theorem countStatusList_eq (cs : List TreeNode) :
    countStatusList cs = (cs.map countStatus).sum := by
  induction cs with
  | nil => rfl
  | cons c cs ih =>
    simp only [countStatusList, List.map_cons, List.sum_cons, ih]
    exact (Prod.mk_add_mk _ _ _ _).symm

/-- The root of a node built by `buildTree` with the claimed aggregate
fields satisfies `nodeInv`, and so does every descendant provided the
children's subtrees do. -/
theorem allNodes_inv_of_children (p : Payment) (cs : List TreeNode) (d : Int)
    (hcs : ∀ c ∈ cs, ∀ n ∈ c.allNodes, nodeInv n) :
    ∀ n ∈ (TreeNode.mk p cs d
        (if cs.isEmpty then p.amount else (cs.map TreeNode.totalLeafAmount).sum)
        (if cs.isEmpty then 1 else (cs.map TreeNode.leafCount).sum)).allNodes,
      nodeInv n := by
  intro n hn
  rcases mem_allNodes.mp hn with hroot | ⟨c, hc, hnc⟩
  · subst hroot
    by_cases hemp : cs.isEmpty
    · have hnil : cs = [] := List.isEmpty_iff.mp hemp
      subst hnil
      simp [nodeInv, TreeNode.children, TreeNode.leafCount, TreeNode.totalLeafAmount,
        TreeNode.payment, countStatus]
    · simp only [nodeInv, TreeNode.children, hemp, if_false, TreeNode.leafCount,
        TreeNode.totalLeafAmount, TreeNode.payment, if_neg, Bool.not_eq_true]
      refine ⟨trivial, trivial, ?_⟩
      rw [countStatus, if_neg hemp]
      exact countStatusList_eq cs
  · exact hcs c hc n hnc

/-- Case analysis for one shard-resolution block: it yields no child (absent
or unresolvable id) or exactly the recursively built subtree of the resolved
payment. -/
theorem buildChild_cases {rec : Payment → Int → Option TreeNode}
    {pm : Int → Option Payment} {sid d : Int}
    {cs : List TreeNode} (h : buildChild rec pm sid d = some cs) :
    cs = [] ∨ ∃ shard t, pm sid = some shard ∧
      rec shard (d + 1) = some t ∧ cs = [t] := by
  rw [buildChild] at h
  split at h
  · split at h
    · rename_i shard hshard
      split at h
      · rename_i t ht
        cases h
        exact Or.inr ⟨shard, t, hshard, ht, rfl⟩
      · exact Option.noConfusion h
    · cases h
      exact Or.inl rfl
  · cases h
    exact Or.inl rfl

/-- Every node of a tree produced by `buildTree` satisfies the leaf/sum
invariant, for an arbitrary payment-id resolver `pm`. -/
theorem buildTree_allNodes_inv :
    ∀ (fuel : Nat) (pm : Int → Option Payment) (p : Payment) (d : Int) (t : TreeNode),
      buildTree fuel pm p d = some t → ∀ n ∈ t.allNodes, nodeInv n := by
  intro fuel
  induction fuel with
  | zero =>
    intro pm p d t h
    rw [buildTree] at h
    exact Option.noConfusion h
  | succ fuel ih =>
    intro pm p d t h
    rw [buildTree] at h
    split at h
    · rename_i cs1 cs2 h1 h2
      have hcs1 : ∀ c ∈ cs1, ∀ n ∈ c.allNodes, nodeInv n := by
        rcases buildChild_cases h1 with rfl | ⟨shard, t1, _, ht1, rfl⟩
        · intro c hc; cases hc
        · intro c hc
          have hct : c = t1 := List.mem_singleton.mp hc
          subst hct
          exact ih pm shard (d + 1) c ht1
      have hcs2 : ∀ c ∈ cs2, ∀ n ∈ c.allNodes, nodeInv n := by
        rcases buildChild_cases h2 with rfl | ⟨shard, t2, _, ht2, rfl⟩
        · intro c hc; cases hc
        · intro c hc
          have hct : c = t2 := List.mem_singleton.mp hc
          subst hct
          exact ih pm shard (d + 1) c ht2
      have hcs : ∀ c ∈ cs1 ++ cs2, ∀ n ∈ c.allNodes, nodeInv n := by
        intro c hc
        rcases List.mem_append.mp hc with hc | hc
        · exact hcs1 c hc
        · exact hcs2 c hc
      have hmain := allNodes_inv_of_children p (cs1 ++ cs2) d hcs
      split at h
      · rename_i hemp
        cases h
        simpa [hemp] using hmain
      · rename_i hemp
        cases h
        simpa [hemp] using hmain
    · exact Option.noConfusion h

/-- A payment found through the last-write-wins lookup map is a member of the
collection the map was built from. -/
theorem lookupPayment_mem {payments : List Payment} {i : Int} {q : Payment}
    (h : lookupPayment payments i = some q) : q ∈ payments := by
  suffices H : ∀ (l : List Payment) (acc : Option Payment),
      l.foldl (fun acc p => if p.id = i then some p else acc) acc = some q →
      q ∈ l ∨ acc = some q by
    rcases H payments none h with hq | hq
    · exact hq
    · exact Option.noConfusion hq
  intro l
  induction l with
  | nil => intro acc h; exact Or.inr h
  | cons p l ih =>
    intro acc h
    rcases ih _ h with hq | hq
    · exact Or.inl (List.mem_cons_of_mem _ hq)
    · dsimp only at hq
      by_cases hpi : p.id = i
      · rw [if_pos hpi] at hq
        injection hq with hq
        subst hq
        exact Or.inl (List.mem_cons_self _ _)
      · rw [if_neg hpi] at hq
        exact Or.inr hq

/-- The root of a built tree carries the payment it was built from. -/
theorem buildTree_payment {fuel : Nat} {pm : Int → Option Payment} {p : Payment}
    {d : Int} {t : TreeNode} (h : buildTree fuel pm p d = some t) : t.payment = p := by
  cases fuel with
  | zero => rw [buildTree] at h; exact Option.noConfusion h
  | succ fuel =>
    rw [buildTree] at h
    split at h
    · split at h
      · cases h; rfl
      · cases h; rfl
    · exact Option.noConfusion h

/-- An unresolvable shard id contributes no child, whatever its sign. -/
theorem buildChild_of_unresolved {rec : Payment → Int → Option TreeNode}
    {pm : Int → Option Payment} {sid d : Int}
    (h : pm sid = none) : buildChild rec pm sid d = some [] := by
  rw [buildChild]
  split
  · rw [h]
  · rfl

/-- Every child node anywhere in a tree built over `lookupPayment payments`
wraps a payment that is actually present in `payments`. -/
theorem buildTree_children_mem :
    ∀ (fuel : Nat) (payments : List Payment) (p : Payment) (d : Int) (t : TreeNode),
      buildTree fuel (lookupPayment payments) p d = some t →
      ∀ n ∈ t.allNodes, ∀ c ∈ n.children, c.payment ∈ payments := by
  intro fuel
  induction fuel with
  | zero =>
    intro payments p d t h
    rw [buildTree] at h
    exact Option.noConfusion h
  | succ fuel ih =>
    intro payments p d t h
    rw [buildTree] at h
    split at h
    · rename_i cs1 cs2 h1 h2
      have hchild : ∀ c ∈ cs1 ++ cs2,
          c.payment ∈ payments ∧ ∀ n ∈ c.allNodes, ∀ c2 ∈ n.children, c2.payment ∈ payments := by
        intro c hc
        rcases List.mem_append.mp hc with hc | hc
        · rcases buildChild_cases h1 with rfl | ⟨shard, t1, hsh, ht1, rfl⟩
          · cases hc
          · have hct : c = t1 := List.mem_singleton.mp hc
            subst hct
            exact ⟨(buildTree_payment ht1).symm ▸ lookupPayment_mem hsh,
              ih payments shard (d + 1) c ht1⟩
        · rcases buildChild_cases h2 with rfl | ⟨shard, t2, hsh, ht2, rfl⟩
          · cases hc
          · have hct : c = t2 := List.mem_singleton.mp hc
            subst hct
            exact ⟨(buildTree_payment ht2).symm ▸ lookupPayment_mem hsh,
              ih payments shard (d + 1) c ht2⟩
      have hall : ∀ cs' d' a' l', (∀ c ∈ cs' ++ [],
            c.payment ∈ payments ∧ ∀ n ∈ c.allNodes, ∀ c2 ∈ n.children, c2.payment ∈ payments) →
          ∀ n ∈ (TreeNode.mk p cs' d' a' l').allNodes, ∀ c2 ∈ n.children, c2.payment ∈ payments := by
        intro cs' d' a' l' hcs' n hn
        rcases mem_allNodes.mp hn with hroot | ⟨c, hc, hnc⟩
        · subst hroot
          intro c2 hc2
          exact (hcs' c2 (List.mem_append.mpr (Or.inl hc2))).1
        · exact (hcs' c (List.mem_append.mpr (Or.inl hc))).2 n hnc
      have hchild' : ∀ c ∈ (cs1 ++ cs2) ++ [],
          c.payment ∈ payments ∧ ∀ n ∈ c.allNodes, ∀ c2 ∈ n.children, c2.payment ∈ payments := by
        simpa using hchild
      split at h
      · cases h; exact hall _ _ _ _ hchild'
      · cases h; exact hall _ _ _ _ hchild'
    · exact Option.noConfusion h

/-- The `childShards` list assigned by the second pass of `parsePayments`
only ever contains payments of the collection itself. -/
theorem childShards_mem {payments : List Payment} {p : Payment} {l : List Payment}
    (h : childShards payments p = some l) : ∀ q ∈ l, q ∈ payments := by
  intro q hq
  have hside : ∀ sid : Int,
      q ∈ (if 0 ≤ sid then (lookupPayment payments sid).toList else []) →
      q ∈ payments := by
    intro sid hmem
    by_cases hs : 0 ≤ sid
    · rw [if_pos hs] at hmem
      exact lookupPayment_mem (Option.mem_def.mp (Option.mem_toList.mp hmem))
    · rw [if_neg hs] at hmem
      cases hmem
  simp only [childShards] at h
  by_cases hor : 0 ≤ p.shard1Id ∨ 0 ≤ p.shard2Id
  · rw [if_pos hor] at h
    set xs := (if 0 ≤ p.shard1Id then (lookupPayment payments p.shard1Id).toList else []) ++
      (if 0 ≤ p.shard2Id then (lookupPayment payments p.shard2Id).toList else []) with hxs
    by_cases hemp : xs.isEmpty = true
    · rw [if_pos hemp] at h
      exact Option.noConfusion h
    · rw [if_neg hemp] at h
      injection h with h
      subst h
      rcases List.mem_append.mp hq with hmem | hmem
      · exact hside _ hmem
      · exact hside _ hmem
  · rw [if_neg hor] at h
    exact Option.noConfusion h

/-- Concrete data for the witnesses: a neutral payment record every field of
which is overridden where a scenario needs it. -/
def basePayment : Payment :=
  { id := 0, senderId := 0, receiverId := 0, amount := 0, startTime := 0,
    maxFeeLimit := 0, endTime := 0, mpp := 0, isShard := false,
    parentPaymentId := -1, shard1Id := -1, shard2Id := -1, isSuccess := false,
    isRolledBack := false, noBalanceCount := 0, offlineNodeCount := 0,
    timeoutExp := 0, attempts := 0, route := [], totalFee := 0,
    attemptsHistory := [] }

/-- An MPP root split into the two shards below (scenario B of the spec). -/
def paymentB2 : Payment :=
  { basePayment with
    id := 2, amount := 50000, shard1Id := 3, shard2Id := 4 }

def paymentB3 : Payment :=
  { basePayment with
    id := 3, amount := 20000, isShard := true,
    parentPaymentId := 2, isSuccess := true }

def paymentB4 : Payment :=
  { basePayment with
    id := 4, amount := 30000, isShard := true,
    parentPaymentId := 2 }

def paymentsB : List Payment := [paymentB2, paymentB3, paymentB4]

def treeB : TreeNode :=
  (buildTree 3 (lookupPayment paymentsB) paymentB2 0).getD (TreeNode.mk basePayment [] 0 0 0)

/-- A root whose first shard reference (id 77) resolves to nothing. -/
def paymentC9 : Payment :=
  { basePayment with
    id := 9, amount := 100, shard1Id := 77, shard2Id := 3 }

def paymentsC : List Payment := [paymentC9, paymentB3]

def treeC : TreeNode :=
  (buildTree 3 (lookupPayment paymentsC) paymentC9 0).getD (TreeNode.mk basePayment [] 0 0 0)

/-- **C1**: every tree node produced by the forest builder from a payment
collection satisfies the leaf/sum invariant: with zero resolved children it is
a leaf with `leafCount = 1`, `totalLeafAmount` its own payment's amount, and a
success/fail tally of `(1,0)` iff its own success flag is set, else `(0,1)`;
with children, its `leafCount`, `totalLeafAmount` and tally are exactly the
sums of its children's, the node itself never being counted. -/
theorem C1_forest_node_invariant (payments : List Payment) (fuel : Nat) (p : Payment)
    (d : Int) (t : TreeNode) (h : buildTree fuel (lookupPayment payments) p d = some t) :
    ∀ n ∈ t.allNodes, nodeInv n :=
  buildTree_allNodes_inv fuel (lookupPayment payments) p d t h

theorem C1_forest_node_invariant_witness :
    buildTree 3 (lookupPayment paymentsB) paymentB2 0 = some treeB ∧
      ∀ n ∈ treeB.allNodes, nodeInv n :=
  ⟨rfl, C1_forest_node_invariant paymentsB 3 paymentB2 0 treeB rfl⟩

/-- **C5**: a shard-id reference that does not resolve to a payment of the
collection is treated as absent, by the parser's `childShards` pass and by
the forest builder alike: the resolved child lists contain only payments
present in the collection, and a node both of whose references are
unresolvable gets no children at all (no phantom node, no error). -/
theorem C5_unresolved_shard_refs (payments : List Payment) (fuel : Nat) (p : Payment)
    (d : Int) (t : TreeNode) (h : buildTree fuel (lookupPayment payments) p d = some t) :
    (∀ l, childShards payments p = some l → ∀ q ∈ l, q ∈ payments)
    ∧ (∀ n ∈ t.allNodes, ∀ c ∈ n.children, c.payment ∈ payments)
    ∧ (lookupPayment payments p.shard1Id = none →
        lookupPayment payments p.shard2Id = none → t.children = []) :=
  ⟨fun _ hl => childShards_mem hl,
   buildTree_children_mem fuel payments p d t h,
   by
    intro h1 h2
    cases fuel with
    | zero => rw [buildTree] at h; exact Option.noConfusion h
    | succ fuel =>
      rw [buildTree, buildChild_of_unresolved h1, buildChild_of_unresolved h2] at h
      cases h
      rfl⟩

theorem C5_unresolved_shard_refs_witness :
    buildTree 3 (lookupPayment paymentsC) paymentC9 0 = some treeC ∧
      ((∀ l, childShards paymentsC paymentC9 = some l → ∀ q ∈ l, q ∈ paymentsC)
      ∧ (∀ n ∈ treeC.allNodes, ∀ c ∈ n.children, c.payment ∈ paymentsC)
      ∧ (lookupPayment paymentsC paymentC9.shard1Id = none →
          lookupPayment paymentsC paymentC9.shard2Id = none → treeC.children = [])) :=
  ⟨rfl, C5_unresolved_shard_refs paymentsC 3 paymentC9 0 treeC rfl⟩

/-! ## Timeline event derivation (`generateTimelineEvents`) -/

/-- The four event kinds of `TimelineEventType` in `src/types.ts`. -/
inductive EventType where
  | payment_start
  | payment_attempt
  | payment_success
  | payment_fail
deriving Repr, DecidableEq

/-- A derived timeline event (`TimelineEvent` in `src/types.ts`); the three
optional fields are set exactly where `generateTimelineEvents` sets them. -/
structure TimelineEvent where
  time : Int
  type : EventType
  paymentId : Int
  attemptIndex : Option Nat
  routeEdges : Option (List Int)
  errorEdge : Option Int
deriving Repr, DecidableEq

/-- The `payment_start` event pushed first for each payment. -/
def startEvent (p : Payment) : TimelineEvent :=
  { time := p.startTime, type := .payment_start, paymentId := p.id,
    attemptIndex := none, routeEdges := none, errorEdge := none }

/-- The events pushed for attempt `i` of payment `p`: a `payment_attempt`
event when the route is non-empty (time `end_time - 100`, the source's
approximated attempt start), then one terminal event — `payment_success` if
the attempt's success flag is truthy, else `payment_fail` if
`error_edge > 0`, else nothing. -/
def attemptEvents (p : Payment) (i : Nat) (a : AttemptHistory) : List TimelineEvent :=
  (if a.route.isEmpty then [] else
    [{ time := a.end_time - 100, type := .payment_attempt, paymentId := p.id,
       attemptIndex := some i, routeEdges := some (a.route.map RouteHop.edge_id),
       errorEdge := none }])
  ++ (if a.is_succeeded ≠ 0 then
        [{ time := a.end_time, type := .payment_success, paymentId := p.id,
           attemptIndex := some i, routeEdges := some (a.route.map RouteHop.edge_id),
           errorEdge := none }]
      else if 0 < a.error_edge then
        [{ time := a.end_time, type := .payment_fail, paymentId := p.id,
           attemptIndex := some i, routeEdges := none,
           errorEdge := some a.error_edge }]
      else [])

/-- All events pushed for one payment, in push order. -/
def paymentEvents (p : Payment) : List TimelineEvent :=
  startEvent p :: (p.attemptsHistory.enum.flatMap fun ia => attemptEvents p ia.1 ia.2)

/-- The full event list in generation order, before sorting. -/
def rawEvents (payments : List Payment) : List TimelineEvent :=
  payments.flatMap paymentEvents

/-- Stable insertion: `e` goes after every earlier-generated event whose time
is `≤ e.time`. -/
def insertByTime (e : TimelineEvent) : List TimelineEvent → List TimelineEvent
  | [] => [e]
  | f :: fs => if f.time ≤ e.time then f :: insertByTime e fs else e :: f :: fs

/-- The stable sort by `time` (the behaviour ECMAScript specifies for
`events.sort((a, b) => a.time - b.time)`). -/
def sortByTime (l : List TimelineEvent) : List TimelineEvent :=
  l.foldl (fun acc e => insertByTime e acc) []

/-- `generateTimelineEvents` from `dataParser.ts`. -/
def generateTimelineEvents (payments : List Payment) : List TimelineEvent :=
  sortByTime (rawEvents payments)

/-- `x` is in the insertion result iff it is the new event or was there. -/
theorem mem_insertByTime {x e : TimelineEvent} :
    ∀ {l : List TimelineEvent}, x ∈ insertByTime e l ↔ x = e ∨ x ∈ l := by
  intro l
  induction l with
  | nil => simp [insertByTime]
  | cons f fs ih =>
    rw [insertByTime]
    split
    · simp only [List.mem_cons, ih]
      tauto
    · simp only [List.mem_cons]

theorem insertByTime_perm (e : TimelineEvent) :
    ∀ (l : List TimelineEvent), (insertByTime e l).Perm (e :: l) := by
  intro l
  induction l with
  | nil => rfl
  | cons f fs ih =>
    rw [insertByTime]
    split
    · exact (ih.cons f).trans (List.Perm.swap e f fs)
    · rfl

theorem insertByTime_pairwise {e : TimelineEvent} {l : List TimelineEvent}
    (h : l.Pairwise (fun a b => a.time ≤ b.time)) :
    (insertByTime e l).Pairwise (fun a b => a.time ≤ b.time) := by
  induction l with
  | nil => simp [insertByTime]
  | cons f fs ih =>
    rw [List.pairwise_cons] at h
    rw [insertByTime]
    split
    · rename_i hf
      rw [List.pairwise_cons]
      constructor
      · intro x hx
        rcases mem_insertByTime.mp hx with rfl | hx
        · exact hf
        · exact h.1 x hx
      · exact ih h.2
    · rename_i hf
      rw [List.pairwise_cons]
      constructor
      · intro x hx
        rcases List.mem_cons.mp hx with rfl | hx
        · exact le_of_lt (lt_of_not_le hf)
        · exact le_trans (le_of_lt (lt_of_not_le hf)) (h.1 x hx)
      · exact List.pairwise_cons.mpr h

/-- Stability of one insertion: among the events of any fixed time `t`, the
new event lands last (its position is after every already-sorted event of
time `≤ t`, in particular of time `= t`). -/
theorem filter_insertByTime (e : TimelineEvent) (t : Int) :
    ∀ (l : List TimelineEvent), l.Pairwise (fun a b => a.time ≤ b.time) →
      (insertByTime e l).filter (fun x => decide (x.time = t)) =
        l.filter (fun x => decide (x.time = t)) ++
          (if e.time = t then [e] else []) := by
  intro l
  induction l with
  | nil =>
    intro _
    simp only [insertByTime, List.filter_nil, List.nil_append]
    by_cases he : e.time = t <;> simp [he]
  | cons f fs ih =>
    intro h
    rw [List.pairwise_cons] at h
    rw [insertByTime]
    split
    · rename_i hf
      by_cases hft : f.time = t <;>
        simp [List.filter_cons, hft, ih h.2]
    · rename_i hf
      have hfs : ∀ x ∈ f :: fs, ¬x.time = t ∨ ¬e.time = t := by
        intro x hx
        by_cases het : e.time = t
        · left
          have : e.time < x.time := by
            rcases List.mem_cons.mp hx with rfl | hx
            · exact lt_of_not_le hf
            · exact lt_of_lt_of_le (lt_of_not_le hf) (h.1 x hx)
          omega
        · right; exact het
      by_cases het : e.time = t
      · have hnil : (f :: fs).filter (fun x => decide (x.time = t)) = [] := by
          rw [List.filter_eq_nil]
          intro x hx
          rcases hfs x hx with hx' | hx'
          · simpa using hx'
          · exact absurd het hx'
        rw [List.filter_cons_of_pos (by simpa using het), hnil, if_pos het]
        rfl
      · have hnil2 : ∀ m : List TimelineEvent,
            m.filter (fun x => decide (x.time = t)) ++ (if e.time = t then [e] else []) =
              m.filter (fun x => decide (x.time = t)) := by
          intro m; rw [if_neg het, List.append_nil]
        rw [hnil2, List.filter_cons_of_neg (by simpa using het)]

theorem sortByTime_perm (l : List TimelineEvent) : (sortByTime l).Perm l := by
  suffices H : ∀ (l acc : List TimelineEvent),
      (l.foldl (fun acc e => insertByTime e acc) acc).Perm (acc ++ l) by
    simpa using H l []
  intro l
  induction l with
  | nil => intro acc; simp
  | cons x l ih =>
    intro acc
    have h1 := ih (insertByTime x acc)
    have h2 : (insertByTime x acc ++ l).Perm (acc ++ x :: l) := by
      have h3 := (insertByTime_perm x acc).append_right l
      exact h3.trans List.perm_middle.symm
    exact h1.trans h2

theorem sortByTime_pairwise (l : List TimelineEvent) :
    (sortByTime l).Pairwise (fun a b => a.time ≤ b.time) := by
  suffices H : ∀ (l acc : List TimelineEvent),
      acc.Pairwise (fun a b => a.time ≤ b.time) →
      (l.foldl (fun acc e => insertByTime e acc) acc).Pairwise (fun a b => a.time ≤ b.time) by
    exact H l [] (by simp)
  intro l
  induction l with
  | nil => intro acc h; simpa using h
  | cons x l ih =>
    intro acc h
    exact ih (insertByTime x acc) (insertByTime_pairwise h)

/-- Stability of the whole sort: the subsequence of events carrying any fixed
time `t` is exactly the subsequence of the generation-order list carrying
time `t`. -/
theorem sortByTime_filter_time (l : List TimelineEvent) (t : Int) :
    (sortByTime l).filter (fun x => decide (x.time = t)) =
      l.filter (fun x => decide (x.time = t)) := by
  suffices H : ∀ (l acc : List TimelineEvent),
      acc.Pairwise (fun a b => a.time ≤ b.time) →
      (l.foldl (fun acc e => insertByTime e acc) acc).filter (fun x => decide (x.time = t)) =
        acc.filter (fun x => decide (x.time = t)) ++ l.filter (fun x => decide (x.time = t)) by
    simpa using H l [] (by simp)
  intro l
  induction l with
  | nil => intro acc _; simp
  | cons x l ih =>
    intro acc h
    have hstep := filter_insertByTime x t acc h
    calc (List.foldl (fun acc e => insertByTime e acc) (insertByTime x acc) l).filter
          (fun x => decide (x.time = t))
        = (insertByTime x acc).filter (fun x => decide (x.time = t)) ++
            l.filter (fun x => decide (x.time = t)) :=
          ih (insertByTime x acc) (insertByTime_pairwise h)
      _ = acc.filter (fun x => decide (x.time = t)) ++
            ((if x.time = t then [x] else []) ++ l.filter (fun x => decide (x.time = t))) := by
          rw [hstep, List.append_assoc]
      _ = _ := by
          by_cases hxt : x.time = t <;> simp [List.filter_cons, hxt]

/-- Every event pushed for attempt `i` of payment `p` carries that payment's
id, that attempt index, and a non-`start` type. -/
theorem mem_attemptEvents_fields {p : Payment} {i : Nat} {a : AttemptHistory}
    {e : TimelineEvent} (h : e ∈ attemptEvents p i a) :
    e.paymentId = p.id ∧ e.attemptIndex = some i ∧ e.type ≠ EventType.payment_start := by
  simp only [attemptEvents, List.mem_append] at h
  rcases h with h | h
  · split at h
    · cases h
    · rcases List.mem_singleton.mp h with rfl
      exact ⟨rfl, rfl, by simp⟩
  · split at h
    · rcases List.mem_singleton.mp h with rfl
      exact ⟨rfl, rfl, by simp⟩
    · split at h
      · rcases List.mem_singleton.mp h with rfl
        exact ⟨rfl, rfl, by simp⟩
      · cases h

/-- Every event pushed for payment `p` carries `p.id`. -/
theorem mem_paymentEvents_paymentId {p : Payment} {e : TimelineEvent}
    (h : e ∈ paymentEvents p) : e.paymentId = p.id := by
  rcases List.mem_cons.mp h with rfl | h
  · rfl
  · rw [List.mem_flatMap] at h
    rcases h with ⟨ia, _, hmem⟩
    exact (mem_attemptEvents_fields hmem).1

/-- With pairwise-distinct payment ids, a filter that only accepts events
carrying `p.id` sees exactly the events pushed for `p`. -/
theorem filter_rawEvents_of_unique {payments : List Payment}
    (hids : (payments.map Payment.id).Nodup) {p : Payment} (hp : p ∈ payments)
    (q : TimelineEvent → Bool) (hq : ∀ e, q e = true → e.paymentId = p.id) :
    (rawEvents payments).filter q = (paymentEvents p).filter q := by
  induction payments with
  | nil => cases hp
  | cons r rest ih =>
    rw [List.map_cons, List.nodup_cons] at hids
    rw [rawEvents, List.cons_bind, List.filter_append]
    rcases List.mem_cons.mp hp with rfl | hprest
    · have hrest : (rest.bind paymentEvents).filter q = [] := by
        rw [List.filter_eq_nil]
        intro e he hqe
        rw [List.mem_flatMap] at he
        rcases he with ⟨p', hp', hep'⟩
        have h1 := hq e hqe
        have h2 := mem_paymentEvents_paymentId hep'
        exact hids.1 (h1 ▸ h2 ▸ List.mem_map_of_mem Payment.id hp')
      rw [hrest, List.append_nil]
    · have hr : (paymentEvents r).filter q = [] := by
        rw [List.filter_eq_nil]
        intro e he hqe
        have h1 := hq e hqe
        have h2 := mem_paymentEvents_paymentId he
        have hpr : r.id = p.id := h2.symm.trans h1
        exact hids.1 (hpr ▸ List.mem_map_of_mem Payment.id hprest)
      rw [hr, List.nil_append]
      exact ih hids.2 hprest

/-- A filter that only accepts attempt index `i` sees nothing among the
events of attempts with indices `≥ n > i`. -/
theorem filter_enumBind_high (p : Payment) (q : TimelineEvent → Bool) (i : Nat)
    (hq : ∀ e, q e = true → e.attemptIndex = some i) :
    ∀ (l : List AttemptHistory) (n : Nat), i < n →
      ((List.enumFrom n l).flatMap fun ia => attemptEvents p ia.1 ia.2).filter q = [] := by
  intro l
  induction l with
  | nil => intro n _; rfl
  | cons b bs ih =>
    intro n hn
    rw [List.enumFrom_cons, List.cons_bind, List.filter_append]
    have h1 : (attemptEvents p n b).filter q = [] := by
      rw [List.filter_eq_nil]
      intro e he hqe
      have h2 := (mem_attemptEvents_fields he).2.1
      have h3 := hq e hqe
      rw [h2] at h3
      injection h3 with h3
      omega
    rw [h1, List.nil_append]
    exact ih (n + 1) (by omega)

/-- A filter that only accepts attempt index `i` sees exactly attempt `i`'s
events among all enumerated attempts. -/
theorem filter_enumBind_at (p : Payment) (q : TimelineEvent → Bool) (i : Nat)
    (a : AttemptHistory) (hq : ∀ e, q e = true → e.attemptIndex = some i) :
    ∀ (l : List AttemptHistory) (n : Nat), n ≤ i → l.get? (i - n) = some a →
      ((List.enumFrom n l).flatMap fun ia => attemptEvents p ia.1 ia.2).filter q =
        (attemptEvents p i a).filter q := by
  intro l
  induction l with
  | nil => intro n _ hget; exact absurd hget (by simp)
  | cons b bs ih =>
    intro n hni hget
    rw [List.enumFrom_cons, List.cons_bind, List.filter_append]
    by_cases hin : i = n
    · subst hin
      rw [Nat.sub_self] at hget
      have hab : b = a := by simpa using hget
      subst hab
      rw [filter_enumBind_high p q i hq bs (i + 1) (by omega), List.append_nil]
    · have h1 : (attemptEvents p n b).filter q = [] := by
        rw [List.filter_eq_nil]
        intro e he hqe
        have h2 := (mem_attemptEvents_fields he).2.1
        have h3 := hq e hqe
        rw [h2] at h3
        injection h3 with h3
        exact hin h3.symm
      rw [h1, List.nil_append]
      have harith : i - n = (i - (n + 1)) + 1 := by omega
      rw [harith, List.get?_cons_succ] at hget
      exact ih (n + 1) (by omega) hget

/-- A filter that only accepts attempt index `i` sees exactly attempt `i`'s
events among all of payment `p`'s events. -/
theorem filter_paymentEvents_attempt (p : Payment) (i : Nat) (a : AttemptHistory)
    (ha : p.attemptsHistory.get? i = some a) (q : TimelineEvent → Bool)
    (hq : ∀ e, q e = true → e.attemptIndex = some i) :
    (paymentEvents p).filter q = (attemptEvents p i a).filter q := by
  rw [paymentEvents, List.filter_cons_of_neg]
  · exact filter_enumBind_at p q i a hq p.attemptsHistory 0 (Nat.zero_le i)
      (by simpa using ha)
  · intro hstart
    have := hq _ hstart
    simp [startEvent] at this

/-- A permutation onto a list of at most one element is an equality. -/
theorem eq_of_perm_len_le_one {l r : List TimelineEvent} (h : l.Perm r)
    (hr : r.length ≤ 1) : l = r := by
  match r, hr with
  | [], _ => exact h.eq_nil
  | [x], _ => exact List.perm_singleton.mp h

/-- The `payment_attempt` filter of one attempt's pushed events. -/
theorem filter_attemptEvents_attKey (p : Payment) (i : Nat) (a : AttemptHistory) :
    (attemptEvents p i a).filter (fun e =>
        decide (e.paymentId = p.id) && decide (e.attemptIndex = some i) &&
          decide (e.type = EventType.payment_attempt)) =
      (if a.route.isEmpty then [] else
        [{ time := a.end_time - 100, type := .payment_attempt, paymentId := p.id,
           attemptIndex := some i, routeEdges := some (a.route.map RouteHop.edge_id),
           errorEdge := none }]) := by
  rw [attemptEvents, List.filter_append]
  split_ifs with h1 h2 h3 <;> simp [List.filter]

/-- The terminal-event filter of one attempt's pushed events. -/
theorem filter_attemptEvents_termKey (p : Payment) (i : Nat) (a : AttemptHistory) :
    (attemptEvents p i a).filter (fun e =>
        decide (e.paymentId = p.id) && decide (e.attemptIndex = some i) &&
          (decide (e.type = EventType.payment_success) ||
            decide (e.type = EventType.payment_fail))) =
      (if a.is_succeeded ≠ 0 then
        [{ time := a.end_time, type := .payment_success, paymentId := p.id,
           attemptIndex := some i, routeEdges := some (a.route.map RouteHop.edge_id),
           errorEdge := none }]
      else if 0 < a.error_edge then
        [{ time := a.end_time, type := .payment_fail, paymentId := p.id,
           attemptIndex := some i, routeEdges := none,
           errorEdge := some a.error_edge }]
      else []) := by
  rw [attemptEvents, List.filter_append]
  split_ifs with h1 h2 h3 <;> simp [List.filter]

/-- **C3**: the derived timeline is sorted by time ascending (every adjacent
pair is ordered), it is a permutation of the generation-order event list, and
the sort is stable: for every time value `t`, the subsequence of events of
time `t` is exactly the generation-order subsequence (per payment: start,
then attempts, then terminals; payments in collection order). -/
theorem C3_timeline_sorted_stable (payments : List Payment) :
    List.Chain' (fun e1 e2 => e1.time ≤ e2.time) (generateTimelineEvents payments)
    ∧ (generateTimelineEvents payments).Perm (rawEvents payments)
    ∧ ∀ t : Int, (generateTimelineEvents payments).filter (fun e => decide (e.time = t)) =
        (rawEvents payments).filter (fun e => decide (e.time = t)) :=
  ⟨List.Pairwise.chain' (sortByTime_pairwise _), sortByTime_perm _,
    fun t => sortByTime_filter_time _ t⟩

/-- **C2**: for a payment `p` of the collection (ids pairwise distinct) and
attempt `i` of its history: the derived timeline holds an attempt event for
`(p, i)` iff the attempt's route is non-empty, with time `end_time - 100`
(the fixed constant offset) and `routeEdges` the attempt's hop edge ids; and
exactly one terminal event — success at `end_time` with the hop edge ids if
the attempt succeeded, else fail at `end_time` with the recorded error edge
if one is recorded (`error_edge > 0`), else no terminal event. -/
theorem C2_per_attempt_events (payments : List Payment)
    (hids : (payments.map Payment.id).Nodup) (p : Payment) (hp : p ∈ payments)
    (i : Nat) (a : AttemptHistory) (ha : p.attemptsHistory.get? i = some a) :
    ((generateTimelineEvents payments).filter fun e =>
        decide (e.paymentId = p.id) && decide (e.attemptIndex = some i) &&
          decide (e.type = EventType.payment_attempt)) =
      (if a.route.isEmpty then [] else
        [{ time := a.end_time - 100, type := .payment_attempt, paymentId := p.id,
           attemptIndex := some i, routeEdges := some (a.route.map RouteHop.edge_id),
           errorEdge := none }])
    ∧ ((generateTimelineEvents payments).filter fun e =>
        decide (e.paymentId = p.id) && decide (e.attemptIndex = some i) &&
          (decide (e.type = EventType.payment_success) ||
            decide (e.type = EventType.payment_fail))) =
      (if a.is_succeeded ≠ 0 then
        [{ time := a.end_time, type := .payment_success, paymentId := p.id,
           attemptIndex := some i, routeEdges := some (a.route.map RouteHop.edge_id),
           errorEdge := none }]
      else if 0 < a.error_edge then
        [{ time := a.end_time, type := .payment_fail, paymentId := p.id,
           attemptIndex := some i, routeEdges := none,
           errorEdge := some a.error_edge }]
      else []) := by
  constructor
  · have hq1 : ∀ e : TimelineEvent,
        (decide (e.paymentId = p.id) && decide (e.attemptIndex = some i) &&
          decide (e.type = EventType.payment_attempt)) = true → e.paymentId = p.id := by
      intro e he
      simp only [Bool.and_eq_true, decide_eq_true_eq] at he
      exact he.1.1
    have hq2 : ∀ e : TimelineEvent,
        (decide (e.paymentId = p.id) && decide (e.attemptIndex = some i) &&
          decide (e.type = EventType.payment_attempt)) = true → e.attemptIndex = some i := by
      intro e he
      simp only [Bool.and_eq_true, decide_eq_true_eq] at he
      exact he.1.2
    have hperm := (sortByTime_perm (rawEvents payments)).filter
      (fun e => decide (e.paymentId = p.id) && decide (e.attemptIndex = some i) &&
        decide (e.type = EventType.payment_attempt))
    rw [filter_rawEvents_of_unique hids hp _ hq1,
      filter_paymentEvents_attempt p i a ha _ hq2,
      filter_attemptEvents_attKey p i a] at hperm
    exact eq_of_perm_len_le_one hperm (by split_ifs <;> simp)
  · have hq1 : ∀ e : TimelineEvent,
        (decide (e.paymentId = p.id) && decide (e.attemptIndex = some i) &&
          (decide (e.type = EventType.payment_success) ||
            decide (e.type = EventType.payment_fail))) = true → e.paymentId = p.id := by
      intro e he
      simp only [Bool.and_eq_true, decide_eq_true_eq] at he
      exact he.1.1
    have hq2 : ∀ e : TimelineEvent,
        (decide (e.paymentId = p.id) && decide (e.attemptIndex = some i) &&
          (decide (e.type = EventType.payment_success) ||
            decide (e.type = EventType.payment_fail))) = true → e.attemptIndex = some i := by
      intro e he
      simp only [Bool.and_eq_true, decide_eq_true_eq] at he
      exact he.1.2
    have hperm := (sortByTime_perm (rawEvents payments)).filter
      (fun e => decide (e.paymentId = p.id) && decide (e.attemptIndex = some i) &&
        (decide (e.type = EventType.payment_success) ||
          decide (e.type = EventType.payment_fail)))
    rw [filter_rawEvents_of_unique hids hp _ hq1,
      filter_paymentEvents_attempt p i a ha _ hq2,
      filter_attemptEvents_termKey p i a] at hperm
    exact eq_of_perm_len_le_one hperm (by split_ifs <;> simp)

/-- One payment pushes exactly one `payment_start` event. -/
theorem paymentEvents_start_countP (p : Payment) :
    ((paymentEvents p).countP fun e => decide (e.type = EventType.payment_start)) = 1 := by
  rw [paymentEvents, List.countP_cons]
  have h0 : ((p.attemptsHistory.enum.flatMap fun ia => attemptEvents p ia.1 ia.2).countP
      fun e => decide (e.type = EventType.payment_start)) = 0 := by
    rw [List.countP_eq_zero]
    intro e he
    rw [List.mem_flatMap] at he
    rcases he with ⟨ia, _, hmem⟩
    have := (mem_attemptEvents_fields hmem).2.2
    simpa using this
  rw [h0]
  simp [startEvent]

theorem rawEvents_start_countP (payments : List Payment) :
    ((rawEvents payments).countP fun e => decide (e.type = EventType.payment_start)) =
      payments.length := by
  induction payments with
  | nil => rfl
  | cons r rest ih =>
    rw [rawEvents, List.cons_bind, List.countP_append]
    rw [rawEvents] at ih
    rw [ih, paymentEvents_start_countP, List.length_cons]
    omega

/-- **C4**: the deriver emits exactly one `payment_start` event per payment,
at that payment's `startTime`; the number of start events equals the number
of payments. -/
theorem C4_start_events (payments : List Payment)
    (hids : (payments.map Payment.id).Nodup) (p : Payment) (hp : p ∈ payments) :
    ((generateTimelineEvents payments).countP fun e =>
        decide (e.type = EventType.payment_start)) = payments.length
    ∧ (generateTimelineEvents payments).filter
        (fun e => decide (e.type = EventType.payment_start) &&
          decide (e.paymentId = p.id)) =
      [{ time := p.startTime, type := .payment_start, paymentId := p.id,
         attemptIndex := none, routeEdges := none, errorEdge := none }] := by
  constructor
  · rw [generateTimelineEvents, (sortByTime_perm (rawEvents payments)).countP_eq]
    exact rawEvents_start_countP payments
  · have hq1 : ∀ e : TimelineEvent,
        (decide (e.type = EventType.payment_start) && decide (e.paymentId = p.id)) = true →
          e.paymentId = p.id := by
      intro e he
      simp only [Bool.and_eq_true, decide_eq_true_eq] at he
      exact he.2
    have hperm := (sortByTime_perm (rawEvents payments)).filter
      (fun e => decide (e.type = EventType.payment_start) && decide (e.paymentId = p.id))
    rw [filter_rawEvents_of_unique hids hp _ hq1] at hperm
    have hpe : (paymentEvents p).filter
        (fun e => decide (e.type = EventType.payment_start) && decide (e.paymentId = p.id)) =
        [startEvent p] := by
      rw [paymentEvents, List.filter_cons_of_pos (by simp [startEvent])]
      have h0 : ((p.attemptsHistory.enum.flatMap fun ia => attemptEvents p ia.1 ia.2).filter
          fun e => decide (e.type = EventType.payment_start) &&
            decide (e.paymentId = p.id)) = [] := by
        rw [List.filter_eq_nil]
        intro e he hqe
        rw [List.mem_flatMap] at he
        rcases he with ⟨ia, _, hmem⟩
        have := (mem_attemptEvents_fields hmem).2.2
        simp only [Bool.and_eq_true, decide_eq_true_eq] at hqe
        exact this hqe.1
      rw [h0]
    rw [hpe] at hperm
    exact eq_of_perm_len_le_one hperm (by simp [startEvent])

/-- Concrete witness data: a successful single-attempt payment (scenario A of
the spec). -/
def hopA : RouteHop :=
  { edge_id := 100, from_node_id := 1, to_node_id := 2, sent_amt := 50000,
    edge_cap := 60000, channel_cap := 100000, group_cap := none,
    channel_update := 0 }

def attemptA1 : AttemptHistory :=
  { attempts := 0, is_succeeded := 1, end_time := 1000, error_edge := -1,
    error_type := 0, route := [hopA] }

def paymentA1 : Payment :=
  { basePayment with
    id := 1, senderId := 1, receiverId := 2, amount := 50000, startTime := 0,
    endTime := 1000, isSuccess := true, attempts := 1, route := [100],
    attemptsHistory := [attemptA1] }

def paymentsA : List Payment := [paymentA1]

theorem C2_per_attempt_events_witness :
    (paymentsA.map Payment.id).Nodup ∧ paymentA1 ∈ paymentsA ∧
      paymentA1.attemptsHistory.get? 0 = some attemptA1 ∧
      (((generateTimelineEvents paymentsA).filter fun e =>
          decide (e.paymentId = paymentA1.id) && decide (e.attemptIndex = some 0) &&
            decide (e.type = EventType.payment_attempt)) =
        (if attemptA1.route.isEmpty then [] else
          [{ time := attemptA1.end_time - 100, type := .payment_attempt,
             paymentId := paymentA1.id, attemptIndex := some 0,
             routeEdges := some (attemptA1.route.map RouteHop.edge_id),
             errorEdge := none }])
      ∧ ((generateTimelineEvents paymentsA).filter fun e =>
          decide (e.paymentId = paymentA1.id) && decide (e.attemptIndex = some 0) &&
            (decide (e.type = EventType.payment_success) ||
              decide (e.type = EventType.payment_fail))) =
        (if attemptA1.is_succeeded ≠ 0 then
          [{ time := attemptA1.end_time, type := .payment_success,
             paymentId := paymentA1.id, attemptIndex := some 0,
             routeEdges := some (attemptA1.route.map RouteHop.edge_id),
             errorEdge := none }]
        else if 0 < attemptA1.error_edge then
          [{ time := attemptA1.end_time, type := .payment_fail,
             paymentId := paymentA1.id, attemptIndex := some 0, routeEdges := none,
             errorEdge := some attemptA1.error_edge }]
        else [])) :=
  ⟨by decide, by decide, rfl,
    C2_per_attempt_events paymentsA (by decide) paymentA1 (by decide) 0 attemptA1 rfl⟩

theorem C4_start_events_witness :
    (paymentsA.map Payment.id).Nodup ∧ paymentA1 ∈ paymentsA ∧
      (((generateTimelineEvents paymentsA).countP fun e =>
          decide (e.type = EventType.payment_start)) = paymentsA.length
      ∧ (generateTimelineEvents paymentsA).filter
          (fun e => decide (e.type = EventType.payment_start) &&
            decide (e.paymentId = paymentA1.id)) =
        [{ time := paymentA1.startTime, type := .payment_start,
           paymentId := paymentA1.id, attemptIndex := none, routeEdges := none,
           errorEdge := none }]) :=
  ⟨by decide, by decide,
    C4_start_events paymentsA (by decide) paymentA1 (by decide)⟩

/-! ## `parsePayments` row handling (attempt-history decode policy) -/

/-- The decode outcome of one row's `attempts_history` CSV field.  The field
holds JSON decoded per row by the external `JSON.parse`; the embedding
carries the outcome: absent field, decode failure, or the decoded history. -/
inductive HistField where
  | missing
  | malformed
  | ok (history : List AttemptHistory)
deriving Repr, DecidableEq

/-- The `if (row.attempts_history) \x7b try ... catch \x7d` policy: only a
successful decode yields a history; an absent field or a decode failure
leaves the default empty history (the row is kept either way). -/
def decodeHistory : HistField → List AttemptHistory
  | .ok l => l
  | _ => []

/-- One CSV row of the payments table, after the per-field numeric parses
(the `parseInt`/`split('-')` plumbing of the other columns is not what this
component's error policy governs, so those fields are carried post-parse). -/
structure PaymentRow where
  id : Int
  sender_id : Int
  receiver_id : Int
  amount : Int
  start_time : Int
  max_fee_limit : Int
  end_time : Int
  mpp : Int
  is_shard : Bool
  parent_payment_id : Int
  shard1_id : Int
  shard2_id : Int
  is_success : Bool
  is_rolledback : Bool
  no_balance_count : Int
  offline_node_count : Int
  timeout_exp : Int
  attempts : Int
  route : List Int
  total_fee : Int
  attempts_history : HistField
deriving Repr, DecidableEq

/-- The first pass of `parsePayments` in `dataParser.ts`: every row maps to
one payment, its `attemptsHistory` defaulting to `[]` unless the embedded
JSON decoded (the second, shard-linking pass is `childShards` above and does
not add or drop payments). -/
def parsePayments (rows : List PaymentRow) : List Payment :=
  rows.map fun r =>
    { id := r.id, senderId := r.sender_id, receiverId := r.receiver_id,
      amount := r.amount, startTime := r.start_time,
      maxFeeLimit := r.max_fee_limit, endTime := r.end_time, mpp := r.mpp,
      isShard := r.is_shard, parentPaymentId := r.parent_payment_id,
      shard1Id := r.shard1_id, shard2Id := r.shard2_id,
      isSuccess := r.is_success, isRolledBack := r.is_rolledback,
      noBalanceCount := r.no_balance_count,
      offlineNodeCount := r.offline_node_count, timeoutExp := r.timeout_exp,
      attempts := r.attempts, route := r.route, totalFee := r.total_fee,
      attemptsHistory := decodeHistory r.attempts_history }

/-- A payment with an empty attempt history pushes only its start event. -/
theorem paymentEvents_of_empty_history {p : Payment} (h : p.attemptsHistory = []) :
    paymentEvents p = [startEvent p] := by
  rw [paymentEvents, h]
  rfl

/-- **C8**: a payment row whose attempts-history field fails to decode stays
in the output collection at its position, with `attemptsHistory = []` (the
parse never aborts), and the timeline deriver consequently emits only that
payment's start event: the events carrying its id are exactly one
`payment_start`, no attempt/success/fail. -/
theorem C8_history_decode_failure (rows : List PaymentRow) (k : Nat)
    (row : PaymentRow) (hk : rows.get? k = some row)
    (hfail : row.attempts_history = HistField.malformed)
    (hids : ((parsePayments rows).map Payment.id).Nodup) :
    (parsePayments rows).length = rows.length
    ∧ ∃ p, (parsePayments rows).get? k = some p ∧ p.attemptsHistory = [] ∧
        (generateTimelineEvents (parsePayments rows)).filter
          (fun e => decide (e.paymentId = p.id)) =
        [{ time := p.startTime, type := .payment_start, paymentId := p.id,
           attemptIndex := none, routeEdges := none, errorEdge := none }] := by
  constructor
  · exact List.length_map rows _
  · set p : Payment :=
      { id := row.id, senderId := row.sender_id, receiverId := row.receiver_id,
        amount := row.amount, startTime := row.start_time,
        maxFeeLimit := row.max_fee_limit, endTime := row.end_time,
        mpp := row.mpp, isShard := row.is_shard,
        parentPaymentId := row.parent_payment_id, shard1Id := row.shard1_id,
        shard2Id := row.shard2_id, isSuccess := row.is_success,
        isRolledBack := row.is_rolledback,
        noBalanceCount := row.no_balance_count,
        offlineNodeCount := row.offline_node_count,
        timeoutExp := row.timeout_exp, attempts := row.attempts,
        route := row.route, totalFee := row.total_fee,
        attemptsHistory := decodeHistory row.attempts_history } with hpdef
    have hkp : (parsePayments rows).get? k = some p := by
      rw [parsePayments, List.get?_map, hk]
      rfl
    have hhist : p.attemptsHistory = [] := by
      simp [hpdef, decodeHistory, hfail]
    refine ⟨p, hkp, hhist, ?_⟩
    have hmem : p ∈ parsePayments rows := List.get?_mem hkp
    have hq1 : ∀ e : TimelineEvent,
        (decide (e.paymentId = p.id)) = true → e.paymentId = p.id := by
      intro e he
      simpa using he
    have hperm := (sortByTime_perm (rawEvents (parsePayments rows))).filter
      (fun e => decide (e.paymentId = p.id))
    rw [filter_rawEvents_of_unique hids hmem _ hq1] at hperm
    rw [paymentEvents_of_empty_history hhist] at hperm
    have hstart : ([startEvent p].filter fun e => decide (e.paymentId = p.id)) =
        [startEvent p] := by simp [startEvent]
    rw [hstart] at hperm
    exact eq_of_perm_len_le_one hperm (by simp)

/-- Concrete rows for the C8 witness: row 0 decodes, row 1 fails to decode. -/
def baseRow : PaymentRow :=
  { id := 0, sender_id := 0, receiver_id := 0, amount := 0, start_time := 0,
    max_fee_limit := 0, end_time := 0, mpp := 0, is_shard := false,
    parent_payment_id := -1, shard1_id := -1, shard2_id := -1,
    is_success := false, is_rolledback := false, no_balance_count := 0,
    offline_node_count := 0, timeout_exp := 0, attempts := 0, route := [],
    total_fee := 0, attempts_history := HistField.missing }

def rowOk : PaymentRow :=
  { baseRow with
    id := 4, sender_id := 1, receiver_id := 2, amount := 700, start_time := 10,
    is_success := true, attempts_history := HistField.ok [attemptA1] }

def rowBad : PaymentRow :=
  { baseRow with
    id := 5, sender_id := 2, receiver_id := 3, amount := 900, start_time := 20,
    attempts_history := HistField.malformed }

def rows8 : List PaymentRow := [rowOk, rowBad]

theorem C8_history_decode_failure_witness :
    rows8.get? 1 = some rowBad ∧
      rowBad.attempts_history = HistField.malformed ∧
      ((parsePayments rows8).map Payment.id).Nodup ∧
      ((parsePayments rows8).length = rows8.length
      ∧ ∃ p, (parsePayments rows8).get? 1 = some p ∧ p.attemptsHistory = [] ∧
          (generateTimelineEvents (parsePayments rows8)).filter
            (fun e => decide (e.paymentId = p.id)) =
          [{ time := p.startTime, type := .payment_start, paymentId := p.id,
             attemptIndex := none, routeEdges := none, errorEdge := none }]) :=
  ⟨rfl, rfl, by decide,
    C8_history_decode_failure rows8 1 rowBad rfl rfl (by decide)⟩

/-! ## Selection/highlight resolver (`NetworkGraph.tsx`) -/

/-- The inner loop shared by the event-route and final-route highlighting in
`NetworkGraph.tsx`: each edge id is added to the highlighted-edge set, and
when it resolves through the edge map its two endpoints are added to the
highlighted-node set (an unresolvable id contributes no endpoints). -/
def addRouteEdges (em : Int → Option Edge) (eids : List Int)
    (acc : Finset Int × Finset Int) : Finset Int × Finset Int :=
  eids.foldl (fun ac eid =>
    match em eid with
    | some e => (insert eid ac.1, insert e.toNodeId (insert e.fromNodeId ac.2))
    | none => (insert eid ac.1, ac.2)) acc

/-- The last-attempt loop of `NetworkGraph.tsx`: each hop adds its edge id
and both its recorded endpoints (taken from the hop itself). -/
def addHops (hops : List RouteHop) (acc : Finset Int × Finset Int) :
    Finset Int × Finset Int :=
  hops.foldl (fun ac hop =>
    (insert hop.edge_id ac.1,
     insert hop.to_node_id (insert hop.from_node_id ac.2))) acc

/-- One step of the current-events loop: route edges and endpoints are
highlighted; a `payment_fail` event with a truthy `errorEdge` (present and
non-zero) records it in the error set. -/
def eventStep (em : Int → Option Edge) (acc : Finset Int × Finset Int × Finset Int)
    (ev : TimelineEvent) : Finset Int × Finset Int × Finset Int :=
  ((match ev.routeEdges with
    | some l => addRouteEdges em l (acc.1, acc.2.1)
    | none => (acc.1, acc.2.1)).1,
   (match ev.routeEdges with
    | some l => addRouteEdges em l (acc.1, acc.2.1)
    | none => (acc.1, acc.2.1)).2,
   if ev.type = EventType.payment_fail then
     match ev.errorEdge with
     | some x => if x ≠ 0 then insert x acc.2.2 else acc.2.2
     | none => acc.2.2
   else acc.2.2)

/-- The `useMemo` of `NetworkGraph.tsx` computing
`highlightedEdges`/`highlightedNodes`/`errorEdges` from the active events and
the optionally selected payment. -/
def computeHighlights (em : Int → Option Edge) (events : List TimelineEvent)
    (selected : Option Payment) : Finset Int × Finset Int × Finset Int :=
  match selected with
  | none => events.foldl (eventStep em) (∅, ∅, ∅)
  | some p =>
    ((match p.attemptsHistory.getLast? with
      | some la => addHops la.route
          (addRouteEdges em p.route
            ((events.foldl (eventStep em) (∅, ∅, ∅)).1,
             insert p.receiverId (insert p.senderId
               (events.foldl (eventStep em) (∅, ∅, ∅)).2.1)))
      | none => addRouteEdges em p.route
          ((events.foldl (eventStep em) (∅, ∅, ∅)).1,
           insert p.receiverId (insert p.senderId
             (events.foldl (eventStep em) (∅, ∅, ∅)).2.1))).1,
     (match p.attemptsHistory.getLast? with
      | some la => addHops la.route
          (addRouteEdges em p.route
            ((events.foldl (eventStep em) (∅, ∅, ∅)).1,
             insert p.receiverId (insert p.senderId
               (events.foldl (eventStep em) (∅, ∅, ∅)).2.1)))
      | none => addRouteEdges em p.route
          ((events.foldl (eventStep em) (∅, ∅, ∅)).1,
           insert p.receiverId (insert p.senderId
             (events.foldl (eventStep em) (∅, ∅, ∅)).2.1))).2,
     (events.foldl (eventStep em) (∅, ∅, ∅)).2.2)

theorem mem_addRouteEdges_fst (em : Int → Option Edge) (x : Int) :
    ∀ (eids : List Int) (acc : Finset Int × Finset Int),
      x ∈ (addRouteEdges em eids acc).1 ↔ x ∈ acc.1 ∨ x ∈ eids := by
  intro eids
  induction eids with
  | nil => intro acc; simp [addRouteEdges]
  | cons eid rest ih =>
    intro acc
    rw [addRouteEdges, List.foldl_cons]
    cases he : em eid <;>
      · rw [show ∀ ac, List.foldl _ ac rest = addRouteEdges em rest ac from fun _ => rfl]
        simp only [he, ih]
        simp [Finset.mem_insert]
        tauto

theorem mem_addRouteEdges_snd (em : Int → Option Edge) (x : Int) :
    ∀ (eids : List Int) (acc : Finset Int × Finset Int),
      x ∈ (addRouteEdges em eids acc).2 ↔ x ∈ acc.2 ∨
        ∃ eid ∈ eids, ∃ e, em eid = some e ∧ (x = e.fromNodeId ∨ x = e.toNodeId) := by
  intro eids
  induction eids with
  | nil => intro acc; simp [addRouteEdges]
  | cons eid rest ih =>
    intro acc
    rw [addRouteEdges, List.foldl_cons]
    cases he : em eid
    · rw [show ∀ ac, List.foldl _ ac rest = addRouteEdges em rest ac from fun _ => rfl]
      simp only [he, ih]
      simp only [List.mem_cons]
      constructor
      · rintro (hx | ⟨eid2, h2, he2⟩)
        · exact Or.inl hx
        · exact Or.inr ⟨eid2, Or.inr h2, he2⟩
      · rintro (hx | ⟨eid2, h2 | h2, he2⟩)
        · exact Or.inl hx
        · subst h2
          rcases he2 with ⟨e, he2, _⟩
          rw [he] at he2
          exact Option.noConfusion he2
        · exact Or.inr ⟨eid2, h2, he2⟩
    · rename_i e
      rw [show ∀ ac, List.foldl _ ac rest = addRouteEdges em rest ac from fun _ => rfl]
      simp only [he, ih]
      simp only [List.mem_cons, Finset.mem_insert]
      constructor
      · rintro ((hx | hx | hx) | ⟨eid2, h2, he2⟩)
        · exact Or.inr ⟨eid, Or.inl rfl, e, he, Or.inr hx⟩
        · exact Or.inr ⟨eid, Or.inl rfl, e, he, Or.inl hx⟩
        · exact Or.inl hx
        · exact Or.inr ⟨eid2, Or.inr h2, he2⟩
      · rintro (hx | ⟨eid2, h2 | h2, e2, he2, hx2⟩)
        · exact Or.inl (Or.inr (Or.inr hx))
        · subst h2
          rw [he] at he2
          injection he2 with he2
          subst he2
          rcases hx2 with hx2 | hx2
          · exact Or.inl (Or.inr (Or.inl hx2))
          · exact Or.inl (Or.inl hx2)
        · exact Or.inr ⟨eid2, h2, e2, he2, hx2⟩

theorem mem_addHops_fst (x : Int) :
    ∀ (hops : List RouteHop) (acc : Finset Int × Finset Int),
      x ∈ (addHops hops acc).1 ↔ x ∈ acc.1 ∨ ∃ hop ∈ hops, x = hop.edge_id := by
  intro hops
  induction hops with
  | nil => intro acc; simp [addHops]
  | cons hop rest ih =>
    intro acc
    rw [addHops, List.foldl_cons]
    rw [show ∀ ac, List.foldl _ ac rest = addHops rest ac from fun _ => rfl]
    simp only [ih]
    simp only [List.mem_cons, Finset.mem_insert]
    constructor
    · rintro ((hx | hx) | ⟨hop2, h2, hx2⟩)
      · exact Or.inr ⟨hop, Or.inl rfl, hx⟩
      · exact Or.inl hx
      · exact Or.inr ⟨hop2, Or.inr h2, hx2⟩
    · rintro (hx | ⟨hop2, h2 | h2, hx2⟩)
      · exact Or.inl (Or.inr hx)
      · subst h2; exact Or.inl (Or.inl hx2)
      · exact Or.inr ⟨hop2, h2, hx2⟩

theorem mem_addHops_snd (x : Int) :
    ∀ (hops : List RouteHop) (acc : Finset Int × Finset Int),
      x ∈ (addHops hops acc).2 ↔ x ∈ acc.2 ∨
        ∃ hop ∈ hops, x = hop.from_node_id ∨ x = hop.to_node_id := by
  intro hops
  induction hops with
  | nil => intro acc; simp [addHops]
  | cons hop rest ih =>
    intro acc
    rw [addHops, List.foldl_cons]
    rw [show ∀ ac, List.foldl _ ac rest = addHops rest ac from fun _ => rfl]
    simp only [ih]
    simp only [List.mem_cons, Finset.mem_insert]
    constructor
    · rintro ((hx | hx | hx) | ⟨hop2, h2, hx2⟩)
      · exact Or.inr ⟨hop, Or.inl rfl, Or.inr hx⟩
      · exact Or.inr ⟨hop, Or.inl rfl, Or.inl hx⟩
      · exact Or.inl hx
      · exact Or.inr ⟨hop2, Or.inr h2, hx2⟩
    · rintro (hx | ⟨hop2, h2 | h2, hx2⟩)
      · exact Or.inl (Or.inr (Or.inr hx))
      · subst h2
        rcases hx2 with hx2 | hx2
        · exact Or.inl (Or.inr (Or.inl hx2))
        · exact Or.inl (Or.inl hx2)
      · exact Or.inr ⟨hop2, h2, hx2⟩

theorem eventStep_fst (em : Int → Option Edge) (acc : Finset Int × Finset Int × Finset Int)
    (ev : TimelineEvent) (x : Int) :
    x ∈ (eventStep em acc ev).1 ↔ x ∈ acc.1 ∨
      ∃ l, ev.routeEdges = some l ∧ x ∈ l := by
  cases hre : ev.routeEdges with
  | none => simp [eventStep, hre]
  | some l => simp [eventStep, hre, mem_addRouteEdges_fst]

theorem eventStep_snd1 (em : Int → Option Edge) (acc : Finset Int × Finset Int × Finset Int)
    (ev : TimelineEvent) (x : Int) :
    x ∈ (eventStep em acc ev).2.1 ↔ x ∈ acc.2.1 ∨
      ∃ l, ev.routeEdges = some l ∧
        ∃ eid ∈ l, ∃ e, em eid = some e ∧ (x = e.fromNodeId ∨ x = e.toNodeId) := by
  cases hre : ev.routeEdges with
  | none => simp [eventStep, hre]
  | some l => simp [eventStep, hre, mem_addRouteEdges_snd]

theorem eventStep_snd2 (em : Int → Option Edge) (acc : Finset Int × Finset Int × Finset Int)
    (ev : TimelineEvent) (x : Int) :
    x ∈ (eventStep em acc ev).2.2 ↔ x ∈ acc.2.2 ∨
      (ev.type = EventType.payment_fail ∧ ev.errorEdge = some x ∧ x ≠ 0) := by
  have hproj : (eventStep em acc ev).2.2 =
      (if ev.type = EventType.payment_fail then
        match ev.errorEdge with
        | some y => if y ≠ 0 then insert y acc.2.2 else acc.2.2
        | none => acc.2.2
      else acc.2.2) := rfl
  rw [hproj]
  by_cases ht : ev.type = EventType.payment_fail
  · rw [if_pos ht]
    cases her : ev.errorEdge with
    | none => simp [her, ht]
    | some y =>
      by_cases hy : y = 0
      · subst hy
        change x ∈ acc.2.2 ↔ _
        constructor
        · exact fun h => Or.inl h
        · rintro (h | ⟨_, hx, hne⟩)
          · exact h
          · injection hx with hx
            exact absurd hx.symm hne
      · change x ∈ (if y ≠ 0 then insert y acc.2.2 else acc.2.2) ↔ _
        rw [if_pos hy]
        constructor
        · intro hmem
          rcases Finset.mem_insert.mp hmem with rfl | hmem
          · exact Or.inr ⟨ht, rfl, hy⟩
          · exact Or.inl hmem
        · rintro (h | ⟨_, hx, hne⟩)
          · exact Finset.mem_insert_of_mem h
          · injection hx with hx
            subst hx
            exact Finset.mem_insert_self _ _
  · rw [if_neg ht]
    simp [ht]

theorem mem_eventsFold_fst (em : Int → Option Edge) (x : Int) :
    ∀ (events : List TimelineEvent) (acc : Finset Int × Finset Int × Finset Int),
      x ∈ (events.foldl (eventStep em) acc).1 ↔ x ∈ acc.1 ∨
        ∃ ev ∈ events, ∃ l, ev.routeEdges = some l ∧ x ∈ l := by
  intro events
  induction events with
  | nil => intro acc; simp
  | cons ev evs ih =>
    intro acc
    rw [List.foldl_cons, ih, eventStep_fst]
    simp only [List.mem_cons]
    constructor
    · rintro ((h | ⟨l, hl, hx⟩) | ⟨ev2, h2, hl2⟩)
      · exact Or.inl h
      · exact Or.inr ⟨ev, Or.inl rfl, l, hl, hx⟩
      · exact Or.inr ⟨ev2, Or.inr h2, hl2⟩
    · rintro (h | ⟨ev2, h2 | h2, hl2⟩)
      · exact Or.inl (Or.inl h)
      · subst h2; exact Or.inl (Or.inr hl2)
      · exact Or.inr ⟨ev2, h2, hl2⟩

theorem mem_eventsFold_snd1 (em : Int → Option Edge) (x : Int) :
    ∀ (events : List TimelineEvent) (acc : Finset Int × Finset Int × Finset Int),
      x ∈ (events.foldl (eventStep em) acc).2.1 ↔ x ∈ acc.2.1 ∨
        ∃ ev ∈ events, ∃ l, ev.routeEdges = some l ∧
          ∃ eid ∈ l, ∃ e, em eid = some e ∧ (x = e.fromNodeId ∨ x = e.toNodeId) := by
  intro events
  induction events with
  | nil => intro acc; simp
  | cons ev evs ih =>
    intro acc
    rw [List.foldl_cons, ih, eventStep_snd1]
    simp only [List.mem_cons]
    constructor
    · rintro ((h | ⟨l, hl, hx⟩) | ⟨ev2, h2, hl2⟩)
      · exact Or.inl h
      · exact Or.inr ⟨ev, Or.inl rfl, l, hl, hx⟩
      · exact Or.inr ⟨ev2, Or.inr h2, hl2⟩
    · rintro (h | ⟨ev2, h2 | h2, hl2⟩)
      · exact Or.inl (Or.inl h)
      · subst h2; exact Or.inl (Or.inr hl2)
      · exact Or.inr ⟨ev2, h2, hl2⟩

theorem mem_eventsFold_snd2 (em : Int → Option Edge) (x : Int) :
    ∀ (events : List TimelineEvent) (acc : Finset Int × Finset Int × Finset Int),
      x ∈ (events.foldl (eventStep em) acc).2.2 ↔ x ∈ acc.2.2 ∨
        ∃ ev ∈ events, ev.type = EventType.payment_fail ∧
          ev.errorEdge = some x ∧ x ≠ 0 := by
  intro events
  induction events with
  | nil => intro acc; simp
  | cons ev evs ih =>
    intro acc
    rw [List.foldl_cons, ih, eventStep_snd2]
    simp only [List.mem_cons]
    constructor
    · rintro ((h | h) | ⟨ev2, h2, hl2⟩)
      · exact Or.inl h
      · exact Or.inr ⟨ev, Or.inl rfl, h⟩
      · exact Or.inr ⟨ev2, Or.inr h2, hl2⟩
    · rintro (h | ⟨ev2, h2 | h2, hl2⟩)
      · exact Or.inl (Or.inl h)
      · subst h2; exact Or.inl (Or.inr hl2)
      · exact Or.inr ⟨ev2, h2, hl2⟩

theorem computeHighlights_none (em : Int → Option Edge) (events : List TimelineEvent) :
    computeHighlights em events none = events.foldl (eventStep em) (∅, ∅, ∅) := rfl

theorem computeHighlights_some_fst (em : Int → Option Edge)
    (events : List TimelineEvent) (p : Payment) (x : Int) :
    x ∈ (computeHighlights em events (some p)).1 ↔
      x ∈ (events.foldl (eventStep em) (∅, ∅, ∅)).1 ∨ x ∈ p.route ∨
        ∃ la, p.attemptsHistory.getLast? = some la ∧
          ∃ hop ∈ la.route, x = hop.edge_id := by
  cases hla : p.attemptsHistory.getLast? with
  | none =>
    simp only [computeHighlights, hla, mem_addRouteEdges_fst]
    constructor
    · rintro (h | h)
      · exact Or.inl h
      · exact Or.inr (Or.inl h)
    · rintro (h | h | ⟨la2, hla2, h⟩)
      · exact Or.inl h
      · exact Or.inr h
      · exact Option.noConfusion hla2
  | some la =>
    simp only [computeHighlights, hla, mem_addHops_fst, mem_addRouteEdges_fst]
    constructor
    · rintro ((h | h) | h)
      · exact Or.inl h
      · exact Or.inr (Or.inl h)
      · exact Or.inr (Or.inr ⟨la, rfl, h⟩)
    · rintro (h | h | ⟨la2, hla2, h⟩)
      · exact Or.inl (Or.inl h)
      · exact Or.inl (Or.inr h)
      · injection hla2 with hh
        subst hh
        exact Or.inr h

theorem computeHighlights_some_snd1 (em : Int → Option Edge)
    (events : List TimelineEvent) (p : Payment) (x : Int) :
    x ∈ (computeHighlights em events (some p)).2.1 ↔
      x ∈ (events.foldl (eventStep em) (∅, ∅, ∅)).2.1 ∨
        x = p.senderId ∨ x = p.receiverId ∨
        (∃ eid ∈ p.route, ∃ e, em eid = some e ∧
          (x = e.fromNodeId ∨ x = e.toNodeId)) ∨
        (∃ la, p.attemptsHistory.getLast? = some la ∧
          ∃ hop ∈ la.route, x = hop.from_node_id ∨ x = hop.to_node_id) := by
  cases hla : p.attemptsHistory.getLast? with
  | none =>
    simp only [computeHighlights, hla, mem_addRouteEdges_snd, Finset.mem_insert]
    constructor
    · rintro ((h | h | h) | h)
      · exact Or.inr (Or.inr (Or.inl h))
      · exact Or.inr (Or.inl h)
      · exact Or.inl h
      · exact Or.inr (Or.inr (Or.inr (Or.inl h)))
    · rintro (h | h | h | h | ⟨la2, hla2, h⟩)
      · exact Or.inl (Or.inr (Or.inr h))
      · exact Or.inl (Or.inr (Or.inl h))
      · exact Or.inl (Or.inl h)
      · exact Or.inr h
      · exact Option.noConfusion hla2
  | some la =>
    simp only [computeHighlights, hla, mem_addHops_snd, mem_addRouteEdges_snd,
      Finset.mem_insert]
    constructor
    · rintro (((h | h | h) | h) | h)
      · exact Or.inr (Or.inr (Or.inl h))
      · exact Or.inr (Or.inl h)
      · exact Or.inl h
      · exact Or.inr (Or.inr (Or.inr (Or.inl h)))
      · exact Or.inr (Or.inr (Or.inr (Or.inr ⟨la, rfl, h⟩)))
    · rintro (h | h | h | h | ⟨la2, hla2, h⟩)
      · exact Or.inl (Or.inl (Or.inr (Or.inr h)))
      · exact Or.inl (Or.inl (Or.inr (Or.inl h)))
      · exact Or.inl (Or.inl (Or.inl h))
      · exact Or.inl (Or.inr h)
      · injection hla2 with hh
        subst hh
        exact Or.inr h

theorem computeHighlights_some_errs (em : Int → Option Edge)
    (events : List TimelineEvent) (p : Payment) :
    (computeHighlights em events (some p)).2.2 =
      (events.foldl (eventStep em) (∅, ∅, ∅)).2.2 := by
  cases hla : p.attemptsHistory.getLast? <;> simp [computeHighlights, hla]

theorem mem_eventsHighlight_fst (em : Int → Option Edge)
    (events : List TimelineEvent) (x : Int) :
    x ∈ (events.foldl (eventStep em) (∅, ∅, ∅)).1 ↔
      ∃ ev ∈ events, ∃ l, ev.routeEdges = some l ∧ x ∈ l := by
  rw [mem_eventsFold_fst]
  simp

theorem mem_eventsHighlight_snd1 (em : Int → Option Edge)
    (events : List TimelineEvent) (x : Int) :
    x ∈ (events.foldl (eventStep em) (∅, ∅, ∅)).2.1 ↔
      ∃ ev ∈ events, ∃ l, ev.routeEdges = some l ∧
        ∃ eid ∈ l, ∃ e, em eid = some e ∧ (x = e.fromNodeId ∨ x = e.toNodeId) := by
  rw [mem_eventsFold_snd1]
  simp

theorem mem_eventsHighlight_snd2 (em : Int → Option Edge)
    (events : List TimelineEvent) (x : Int) :
    x ∈ (events.foldl (eventStep em) (∅, ∅, ∅)).2.2 ↔
      ∃ ev ∈ events, ev.type = EventType.payment_fail ∧
        ev.errorEdge = some x ∧ x ≠ 0 := by
  rw [mem_eventsFold_snd2]
  simp

/-- Justification for C7's hypothesis: every `payment_fail` event the deriver
produces carries a strictly positive `errorEdge` (the `error_edge > 0`
guard in `generateTimelineEvents`). -/
theorem generateTimelineEvents_fail_pos (payments : List Payment) :
    ∀ e ∈ generateTimelineEvents payments, e.type = EventType.payment_fail →
      ∀ x, e.errorEdge = some x → 0 < x := by
  intro e he ht x hx
  have hmem : e ∈ rawEvents payments := (sortByTime_perm _).mem_iff.mp he
  rw [rawEvents, List.mem_flatMap] at hmem
  rcases hmem with ⟨p, _, hpe⟩
  rcases List.mem_cons.mp hpe with rfl | hpe
  · exact absurd ht (by simp [startEvent])
  · rw [List.mem_flatMap] at hpe
    rcases hpe with ⟨ia, _, hmem2⟩
    simp only [attemptEvents, List.mem_append] at hmem2
    rcases hmem2 with h | h
    · split at h
      · cases h
      · rcases List.mem_singleton.mp h with rfl
        exact absurd ht (by simp)
    · split at h
      · rcases List.mem_singleton.mp h with rfl
        exact absurd ht (by simp)
      · split at h
        · rename_i hcond
          rcases List.mem_singleton.mp h with rfl
          injection hx with hx
          exact hx ▸ hcond
        · cases h

/-- **C7**: given the active events and an optionally selected payment, the
resolver of `NetworkGraph.tsx` computes: a highlighted-edge set equal to the
union of the active events' `routeEdges` plus, when a payment is selected,
its final route's edges and its last attempt's hop edges; a highlighted-node
set containing the (edge-map-resolved) endpoints of every event-route and
final-route edge, the recorded endpoints of every last-attempt hop, and the
selected payment's sender and receiver; and an error set containing each
`errorEdge` of an active fail event (fail events carry positive error edges —
see `generateTimelineEvents_fail_pos`). -/
theorem C7_highlight_resolver (edges : List Edge) (events : List TimelineEvent)
    (sel : Option Payment)
    (hwf : ∀ ev ∈ events, ev.type = EventType.payment_fail →
      ∀ x, ev.errorEdge = some x → 0 < x) :
    (∀ x : Int, x ∈ (computeHighlights (lookupEdge edges) events sel).1 ↔
      (∃ ev ∈ events, ∃ l, ev.routeEdges = some l ∧ x ∈ l) ∨
      (∃ p, sel = some p ∧ (x ∈ p.route ∨
        ∃ la, p.attemptsHistory.getLast? = some la ∧
          ∃ hop ∈ la.route, x = hop.edge_id)))
    ∧ (∀ ev ∈ events, ∀ l, ev.routeEdges = some l → ∀ eid ∈ l, ∀ e,
        lookupEdge edges eid = some e →
        e.fromNodeId ∈ (computeHighlights (lookupEdge edges) events sel).2.1 ∧
        e.toNodeId ∈ (computeHighlights (lookupEdge edges) events sel).2.1)
    ∧ (∀ p, sel = some p →
        p.senderId ∈ (computeHighlights (lookupEdge edges) events sel).2.1 ∧
        p.receiverId ∈ (computeHighlights (lookupEdge edges) events sel).2.1 ∧
        (∀ eid ∈ p.route, ∀ e, lookupEdge edges eid = some e →
          e.fromNodeId ∈ (computeHighlights (lookupEdge edges) events sel).2.1 ∧
          e.toNodeId ∈ (computeHighlights (lookupEdge edges) events sel).2.1) ∧
        (∀ la, p.attemptsHistory.getLast? = some la → ∀ hop ∈ la.route,
          hop.from_node_id ∈ (computeHighlights (lookupEdge edges) events sel).2.1 ∧
          hop.to_node_id ∈ (computeHighlights (lookupEdge edges) events sel).2.1))
    ∧ (∀ ev ∈ events, ev.type = EventType.payment_fail →
        ∀ x, ev.errorEdge = some x →
          x ∈ (computeHighlights (lookupEdge edges) events sel).2.2) := by
  cases sel with
  | none =>
    rw [computeHighlights_none]
    refine ⟨?_, ?_, ?_, ?_⟩
    · intro x
      rw [mem_eventsHighlight_fst]
      constructor
      · exact fun h => Or.inl h
      · rintro (h | ⟨p2, hp2, h⟩)
        · exact h
        · exact Option.noConfusion hp2
    · intro ev hev l hl eid heid e he
      exact ⟨(mem_eventsHighlight_snd1 _ _ _).mpr
          ⟨ev, hev, l, hl, eid, heid, e, he, Or.inl rfl⟩,
        (mem_eventsHighlight_snd1 _ _ _).mpr
          ⟨ev, hev, l, hl, eid, heid, e, he, Or.inr rfl⟩⟩
    · intro p2 hp2
      exact Option.noConfusion hp2
    · intro ev hev ht x hx
      have hxpos := hwf ev hev ht x hx
      exact (mem_eventsHighlight_snd2 _ _ _).mpr ⟨ev, hev, ht, hx, by omega⟩
  | some p =>
    refine ⟨?_, ?_, ?_, ?_⟩
    · intro x
      rw [computeHighlights_some_fst, mem_eventsHighlight_fst]
      constructor
      · rintro (h | h | h)
        · exact Or.inl h
        · exact Or.inr ⟨p, rfl, Or.inl h⟩
        · exact Or.inr ⟨p, rfl, Or.inr h⟩
      · rintro (h | ⟨p2, hp2, h⟩)
        · exact Or.inl h
        · injection hp2 with hp2
          subst hp2
          rcases h with h | h
          · exact Or.inr (Or.inl h)
          · exact Or.inr (Or.inr h)
    · intro ev hev l hl eid heid e he
      constructor
      · rw [computeHighlights_some_snd1]
        exact Or.inl ((mem_eventsHighlight_snd1 _ _ _).mpr
          ⟨ev, hev, l, hl, eid, heid, e, he, Or.inl rfl⟩)
      · rw [computeHighlights_some_snd1]
        exact Or.inl ((mem_eventsHighlight_snd1 _ _ _).mpr
          ⟨ev, hev, l, hl, eid, heid, e, he, Or.inr rfl⟩)
    · intro p2 hp2
      injection hp2 with hp2
      subst hp2
      refine ⟨?_, ?_, ?_, ?_⟩
      · rw [computeHighlights_some_snd1]
        exact Or.inr (Or.inl rfl)
      · rw [computeHighlights_some_snd1]
        exact Or.inr (Or.inr (Or.inl rfl))
      · intro eid heid e he
        constructor
        · rw [computeHighlights_some_snd1]
          exact Or.inr (Or.inr (Or.inr (Or.inl ⟨eid, heid, e, he, Or.inl rfl⟩)))
        · rw [computeHighlights_some_snd1]
          exact Or.inr (Or.inr (Or.inr (Or.inl ⟨eid, heid, e, he, Or.inr rfl⟩)))
      · intro la hla hop hhop
        constructor
        · rw [computeHighlights_some_snd1]
          exact Or.inr (Or.inr (Or.inr (Or.inr ⟨la, hla, hop, hhop, Or.inl rfl⟩)))
        · rw [computeHighlights_some_snd1]
          exact Or.inr (Or.inr (Or.inr (Or.inr ⟨la, hla, hop, hhop, Or.inr rfl⟩)))
    · intro ev hev ht x hx
      rw [computeHighlights_some_errs]
      have hxpos := hwf ev hev ht x hx
      exact (mem_eventsHighlight_snd2 _ _ _).mpr ⟨ev, hev, ht, hx, by omega⟩

/-- Concrete data for the C7 witness: one edge, an attempt event over it, a
fail event recording it, and the selected scenario-A payment. -/
def edgeW : Edge :=
  { id := 100, channelId := 10, counterEdgeId := 101, fromNodeId := 1,
    toNodeId := 2, balance := 60000, feeBase := 0, feeProportional := 0,
    minHtlc := 0, timelock := 0, isClosed := false, channelUpdates := 0,
    group := none }

def edgesW : List Edge := [edgeW]

def eventW1 : TimelineEvent :=
  { time := 900, type := .payment_attempt, paymentId := 1,
    attemptIndex := some 0, routeEdges := some [100], errorEdge := none }

def eventW2 : TimelineEvent :=
  { time := 1000, type := .payment_fail, paymentId := 1,
    attemptIndex := some 0, routeEdges := none, errorEdge := some 100 }

def eventsW : List TimelineEvent := [eventW1, eventW2]

theorem C7_highlight_resolver_witness :
    (∀ ev ∈ eventsW, ev.type = EventType.payment_fail →
      ∀ x, ev.errorEdge = some x → 0 < x) ∧
    ((∀ x : Int, x ∈ (computeHighlights (lookupEdge edgesW) eventsW (some paymentA1)).1 ↔
        (∃ ev ∈ eventsW, ∃ l, ev.routeEdges = some l ∧ x ∈ l) ∨
        (∃ p, (some paymentA1 : Option Payment) = some p ∧ (x ∈ p.route ∨
          ∃ la, p.attemptsHistory.getLast? = some la ∧
            ∃ hop ∈ la.route, x = hop.edge_id)))
      ∧ (∀ ev ∈ eventsW, ∀ l, ev.routeEdges = some l → ∀ eid ∈ l, ∀ e,
          lookupEdge edgesW eid = some e →
          e.fromNodeId ∈ (computeHighlights (lookupEdge edgesW) eventsW (some paymentA1)).2.1 ∧
          e.toNodeId ∈ (computeHighlights (lookupEdge edgesW) eventsW (some paymentA1)).2.1)
      ∧ (∀ p, (some paymentA1 : Option Payment) = some p →
          p.senderId ∈ (computeHighlights (lookupEdge edgesW) eventsW (some paymentA1)).2.1 ∧
          p.receiverId ∈ (computeHighlights (lookupEdge edgesW) eventsW (some paymentA1)).2.1 ∧
          (∀ eid ∈ p.route, ∀ e, lookupEdge edgesW eid = some e →
            e.fromNodeId ∈ (computeHighlights (lookupEdge edgesW) eventsW (some paymentA1)).2.1 ∧
            e.toNodeId ∈ (computeHighlights (lookupEdge edgesW) eventsW (some paymentA1)).2.1) ∧
          (∀ la, p.attemptsHistory.getLast? = some la → ∀ hop ∈ la.route,
            hop.from_node_id ∈ (computeHighlights (lookupEdge edgesW) eventsW (some paymentA1)).2.1 ∧
            hop.to_node_id ∈ (computeHighlights (lookupEdge edgesW) eventsW (some paymentA1)).2.1))
      ∧ (∀ ev ∈ eventsW, ev.type = EventType.payment_fail →
          ∀ x, ev.errorEdge = some x →
            x ∈ (computeHighlights (lookupEdge edgesW) eventsW (some paymentA1)).2.2)) :=
  ⟨by decide, C7_highlight_resolver edgesW eventsW (some paymentA1) (by decide)⟩

/-! ## Per-edge usage/failure aggregation (`EdgeList.tsx`) -/

/-- One `counts.set(k, (counts.get(k) || 0) + 1)` update of a counting
`Map`, modelled as a pointwise update of a total function defaulting to 0. -/
def bumpCount (m : Int → Nat) (k : Int) : Int → Nat :=
  fun x => if x = k then m k + 1 else m x

/-- The usage-count map of `edgeStats` in `EdgeList.tsx`: every hop of every
attempt of every payment bumps the entry of its `edge_id`. -/
def usageCounts (payments : List Payment) : Int → Nat :=
  payments.foldl (fun m p =>
    p.attemptsHistory.foldl (fun m a =>
      a.route.foldl (fun m hop => bumpCount m hop.edge_id) m) m) (fun _ => 0)

/-- The failure-count map of `edgeStats`: an attempt whose `error_edge` is
truthy and positive (`attempt.error_edge && attempt.error_edge > 0`, jointly
`error_edge > 0`) bumps that edge's entry. -/
def failureCounts (payments : List Payment) : Int → Nat :=
  payments.foldl (fun m p =>
    p.attemptsHistory.foldl (fun m a =>
      if 0 < a.error_edge then bumpCount m a.error_edge else m) m) (fun _ => 0)

/-- The per-edge stats record of `EdgeList.tsx` (the `channel` and
`capacityHistory` fields are not touched by any claim and are omitted). -/
structure EdgeStats where
  edge : Edge
  usageCount : Nat
  failureCount : Nat
deriving Repr, DecidableEq

/-- `edgeStats` from `EdgeList.tsx`: each edge reads its two counters from
the maps, defaulting to 0 (`usageCounts.get(edge.id) || 0`). -/
def edgeStats (edges : List Edge) (payments : List Payment) : List EdgeStats :=
  edges.map fun e =>
    { edge := e, usageCount := usageCounts payments e.id,
      failureCount := failureCounts payments e.id }

/-- The spec-side usage count: the number of attempt-route hops across all
payments and attempts whose `edge_id` is the given id. -/
def hopUses (payments : List Payment) (eid : Int) : Nat :=
  ((payments.flatMap Payment.attemptsHistory).flatMap
    AttemptHistory.route).countP (fun h => decide (h.edge_id = eid))

/-- The spec-side failure count: the number of attempts whose `error_edge`
equals the given id. -/
def attemptFailures (payments : List Payment) (eid : Int) : Nat :=
  (payments.flatMap Payment.attemptsHistory).countP
    (fun a => decide (a.error_edge = eid))

theorem routeFold_count (x : Int) :
    ∀ (route : List RouteHop) (m : Int → Nat),
      (route.foldl (fun m hop => bumpCount m hop.edge_id) m) x =
        m x + route.countP (fun h => decide (h.edge_id = x)) := by
  intro route
  induction route with
  | nil => intro m; simp
  | cons hop rest ih =>
    intro m
    rw [List.foldl_cons, ih, List.countP_cons]
    by_cases hx : hop.edge_id = x
    · have h1 : (bumpCount m hop.edge_id) x = m x + 1 := by
        simp only [bumpCount]
        rw [if_pos hx.symm, hx]
      rw [h1]
      have hcond : (decide (hop.edge_id = x)) = true := by simp [hx]
      rw [hcond]
      simp
      omega
    · have h1 : (bumpCount m hop.edge_id) x = m x := by
        simp only [bumpCount]
        exact if_neg (fun hh => hx hh.symm)
      rw [h1]
      have hcond : (decide (hop.edge_id = x)) = false := by simp [hx]
      rw [hcond]
      simp

theorem attemptsFold_usage (x : Int) :
    ∀ (hist : List AttemptHistory) (m : Int → Nat),
      (hist.foldl (fun m a =>
          a.route.foldl (fun m hop => bumpCount m hop.edge_id) m) m) x =
        m x + (hist.flatMap AttemptHistory.route).countP
          (fun h => decide (h.edge_id = x)) := by
  intro hist
  induction hist with
  | nil => intro m; simp
  | cons a rest ih =>
    intro m
    rw [List.foldl_cons, ih, routeFold_count]
    rw [show (a :: rest).flatMap AttemptHistory.route =
      a.route ++ rest.flatMap AttemptHistory.route from rfl]
    rw [List.countP_append]
    omega

theorem usageCounts_eq (payments : List Payment) (x : Int) :
    usageCounts payments x = hopUses payments x := by
  suffices H : ∀ (l : List Payment) (m : Int → Nat),
      (l.foldl (fun m p =>
          p.attemptsHistory.foldl (fun m a =>
            a.route.foldl (fun m hop => bumpCount m hop.edge_id) m) m) m) x =
        m x + ((l.flatMap Payment.attemptsHistory).flatMap
          AttemptHistory.route).countP (fun h => decide (h.edge_id = x)) by
    have := H payments (fun _ => 0)
    simpa [usageCounts, hopUses] using this
  intro l
  induction l with
  | nil => intro m; simp
  | cons p rest ih =>
    intro m
    rw [List.foldl_cons, ih, attemptsFold_usage]
    rw [show ((p :: rest).flatMap Payment.attemptsHistory).flatMap
        AttemptHistory.route =
      (p.attemptsHistory.flatMap AttemptHistory.route) ++
        ((rest.flatMap Payment.attemptsHistory).flatMap AttemptHistory.route) by
      rw [show (p :: rest).flatMap Payment.attemptsHistory =
        p.attemptsHistory ++ rest.flatMap Payment.attemptsHistory from rfl,
        List.flatMap_append]]
    rw [List.countP_append]
    omega

theorem attemptsFold_failure (x : Int) :
    ∀ (hist : List AttemptHistory) (m : Int → Nat),
      (hist.foldl (fun m a =>
          if 0 < a.error_edge then bumpCount m a.error_edge else m) m) x =
        m x + hist.countP
          (fun a => decide (a.error_edge = x) && decide (0 < a.error_edge)) := by
  intro hist
  induction hist with
  | nil => intro m; simp
  | cons a rest ih =>
    intro m
    rw [List.foldl_cons, ih, List.countP_cons]
    by_cases hpos : 0 < a.error_edge
    · rw [if_pos hpos]
      by_cases hx : a.error_edge = x
      · have h1 : (bumpCount m a.error_edge) x = m x + 1 := by
          simp only [bumpCount]
          rw [if_pos hx.symm, hx]
        rw [h1]
        have hcond : (decide (a.error_edge = x) && decide (0 < a.error_edge)) = true := by
          have hpos2 : (0 : Int) < x := hx ▸ hpos
          simp [hx, hpos2]
        rw [hcond]
        simp
        omega
      · have h1 : (bumpCount m a.error_edge) x = m x := by
          simp only [bumpCount]
          exact if_neg (fun hh => hx hh.symm)
        rw [h1]
        have hcond : (decide (a.error_edge = x) && decide (0 < a.error_edge)) = false := by
          simp [hx]
        rw [hcond]
        simp
    · rw [if_neg hpos]
      have hcond : (decide (a.error_edge = x) && decide (0 < a.error_edge)) = false := by
        simp [hpos]
      rw [hcond]
      simp

theorem failureCounts_eq (payments : List Payment) (x : Int) :
    failureCounts payments x =
      (payments.flatMap Payment.attemptsHistory).countP
        (fun a => decide (a.error_edge = x) && decide (0 < a.error_edge)) := by
  suffices H : ∀ (l : List Payment) (m : Int → Nat),
      (l.foldl (fun m p =>
          p.attemptsHistory.foldl (fun m a =>
            if 0 < a.error_edge then bumpCount m a.error_edge else m) m) m) x =
        m x + (l.flatMap Payment.attemptsHistory).countP
          (fun a => decide (a.error_edge = x) && decide (0 < a.error_edge)) by
    have := H payments (fun _ => 0)
    simpa [failureCounts] using this
  intro l
  induction l with
  | nil => intro m; simp
  | cons p rest ih =>
    intro m
    rw [List.foldl_cons, ih, attemptsFold_failure]
    rw [show (p :: rest).flatMap Payment.attemptsHistory =
      p.attemptsHistory ++ rest.flatMap Payment.attemptsHistory from rfl]
    rw [List.countP_append]
    omega

/-- Counterexample data for C6: an edge with id `0` and a failed attempt
whose `error_edge` is the sentinel `0`. -/
def edgeZ : Edge := { edgeW with id := 0 }

def attemptZ : AttemptHistory :=
  { attempts := 0, is_succeeded := 0, end_time := 500, error_edge := 0,
    error_type := 1, route := [] }

def paymentZ : Payment :=
  { basePayment with id := 11, attemptsHistory := [attemptZ] }

/-- C6 as stated is false: for an edge whose id is not positive, the
`error_edge > 0` guard of `EdgeList.tsx` never counts a matching attempt.
Edge id 0 with an attempt recording `error_edge = 0` has `failureCount = 0`
but one attempt whose `error_edge` equals its id. -/
theorem C6_edge_stats_counterexample :
    ¬ (∀ (edges : List Edge) (payments : List Payment),
        ∀ s ∈ edgeStats edges payments,
          s.usageCount = hopUses payments s.edge.id ∧
          s.failureCount = attemptFailures payments s.edge.id) := by
  intro h
  have h2 := h [edgeZ] [paymentZ]
    ⟨edgeZ, usageCounts [paymentZ] edgeZ.id, failureCounts [paymentZ] edgeZ.id⟩
    (by decide)
  exact absurd h2.2 (by decide)

/-- **C6 (amended)**: for every entry of `edgeStats`, `usageCount` equals the
number of attempt-route hops whose `edge_id` is the edge's id (once per hop,
never deduplicated), and — for edges with positive id, the only ones a
recorded error edge can reference, since non-positive `error_edge` values are
the no-error sentinel the code guards with `error_edge > 0` — `failureCount`
equals the number of attempts whose `error_edge` equals the edge's id. -/
theorem C6_edge_stats_amended (edges : List Edge) (payments : List Payment) :
    ∀ s ∈ edgeStats edges payments,
      s.usageCount = hopUses payments s.edge.id ∧
      (0 < s.edge.id → s.failureCount = attemptFailures payments s.edge.id) := by
  intro s hs
  rw [edgeStats, List.mem_map] at hs
  rcases hs with ⟨e, _, rfl⟩
  refine ⟨usageCounts_eq payments e.id, ?_⟩
  intro hpos
  have hpos' : (0 : Int) < e.id := hpos
  show failureCounts payments e.id = attemptFailures payments e.id
  rw [failureCounts_eq, attemptFailures]
  induction payments.flatMap Payment.attemptsHistory with
  | nil => rfl
  | cons a rest ih =>
    rw [List.countP_cons, List.countP_cons, ih]
    congr 1
    by_cases hx : a.error_edge = e.id
    · simp [hx, hpos']
    · simp [hx]

theorem C6_edge_stats_amended_witness :
    (⟨edgeW, usageCounts paymentsA edgeW.id, failureCounts paymentsA edgeW.id⟩ :
        EdgeStats) ∈ edgeStats edgesW paymentsA ∧
      (0 : Int) < edgeW.id ∧
      (usageCounts paymentsA edgeW.id = hopUses paymentsA edgeW.id ∧
        ((0 : Int) < edgeW.id →
          failureCounts paymentsA edgeW.id = attemptFailures paymentsA edgeW.id)) :=
  ⟨by decide, by decide,
    C6_edge_stats_amended edgesW paymentsA
      ⟨edgeW, usageCounts paymentsA edgeW.id, failureCounts paymentsA edgeW.id⟩
      (by decide)⟩

/-! ## `parseConfig` (line-oriented `key=value` text) -/

/-- The whitespace class trimmed/skipped by the JavaScript string routines
(space, tab, LF, VT, FF, CR). -/
def isJsWhitespace (c : Char) : Bool :=
  decide (c.toNat = 32 ∨ c.toNat = 9 ∨ c.toNat = 10 ∨ c.toNat = 11 ∨
    c.toNat = 12 ∨ c.toNat = 13)

/-- `String.prototype.split(sep)` for a one-character separator: every
occurrence splits, empty segments retained, `""` yielding `[""]`. -/
def splitOnChar (sep : Char) : List Char → List (List Char)
  | [] => [[]]
  | c :: rest =>
    if c = sep then [] :: splitOnChar sep rest
    else
      match splitOnChar sep rest with
      | [] => [[c]]
      | seg :: segs => (c :: seg) :: segs

/-- `String.prototype.trim()`: strip whitespace from both ends. -/
def trimStr (s : List Char) : List Char :=
  ((s.dropWhile isJsWhitespace).reverse.dropWhile isJsWhitespace).reverse

/-- The accumulation loop of `parseConfig`: split the text on newlines, each
line on `=`; keep a line only when the part before the first `=` is truthy
(non-empty) and a part after exists; trim both.  Assignment order is kept so
that a repeated key resolves to its last occurrence, as for a JS object. -/
def configPairs (text : List Char) : List (List Char × List Char) :=
  (splitOnChar '\n' text).foldl (fun acc line =>
    match splitOnChar '=' line with
    | key :: value :: _ =>
      if key.isEmpty then acc else acc ++ [(trimStr key, trimStr value)]
    | _ => acc) []

/-- Reading `config[key]` from the accumulated assignments: the last write
wins; an unwritten key is `undefined`, here `none`. -/
def lookupConfig (pairs : List (List Char × List Char)) (k : List Char) :
    Option (List Char) :=
  pairs.foldl (fun acc kv => if kv.1 = k then some kv.2 else acc) none

def digitVal? (c : Char) : Option Nat :=
  if 48 ≤ c.toNat ∧ c.toNat ≤ 57 then some (c.toNat - 48) else none

def hexDigitVal? (c : Char) : Option Nat :=
  if 48 ≤ c.toNat ∧ c.toNat ≤ 57 then some (c.toNat - 48)
  else if 97 ≤ c.toNat ∧ c.toNat ≤ 102 then some (c.toNat - 87)
  else if 65 ≤ c.toNat ∧ c.toNat ≤ 70 then some (c.toNat - 55)
  else none

/-- The longest prefix of digits, converted. -/
def takeDigits (f : Char → Option Nat) : List Char → List Nat
  | [] => []
  | c :: rest =>
    match f c with
    | some d => d :: takeDigits f rest
    | none => []

def jsParseIntDigits (base : Nat) (s : List Char) : Option Nat :=
  match takeDigits (if base = 16 then hexDigitVal? else digitVal?) s with
  | [] => none
  | ds => some (ds.foldl (fun acc d => acc * base + d) 0)

def jsParseIntNoSign (s : List Char) : Option Nat :=
  match s with
  | '0' :: 'x' :: rest => jsParseIntDigits 16 rest
  | '0' :: 'X' :: rest => jsParseIntDigits 16 rest
  | _ => jsParseIntDigits 10 s

/-- Model of the external ECMAScript `parseInt(string)` with no radix
argument: skip leading whitespace, take an optional sign, `0x`/`0X` selects
hexadecimal (else decimal), convert the longest digit prefix ignoring
whatever follows; no digit at all is `NaN`, here `none`. -/
def jsParseInt (s : List Char) : Option Int :=
  match s.dropWhile isJsWhitespace with
  | '-' :: rest => (jsParseIntNoSign rest).map (fun n => -(n : Int))
  | '+' :: rest => (jsParseIntNoSign rest).map (fun n => (n : Int))
  | rest => (jsParseIntNoSign rest).map (fun n => (n : Int))

/-- `parseInt(v) || d`: `NaN` and `0` (also `-0`) are falsy and fall back to
the default; `parseInt(undefined)` is `NaN`. -/
def jsOrInt (v : Option (List Char)) (d : Int) : Int :=
  match v with
  | none => d
  | some s =>
    match jsParseInt s with
    | none => d
    | some n => if n = 0 then d else n

/-- `config.x === 'true'`: an absent key compares unequal. -/
def jsIsTrue (v : Option (List Char)) : Bool :=
  decide (v = some "true".data)

/-- `config.x || ''`: an absent key (and, coincidentally, an empty value)
yields the empty string. -/
def jsOrStr (v : Option (List Char)) : List Char :=
  match v with
  | some s => s
  | none => []

/-- `config.x ? parseInt(config.x) : null`: an absent key or empty (falsy)
value is `null` (outer `none`); a present non-empty value is parsed, `NaN`
being the inner `none`. -/
def jsTernaryInt (v : Option (List Char)) : Option (Option Int) :=
  match v with
  | none => none
  | some s => if s.isEmpty then none else some (jsParseInt s)

/-- `SimulationConfig` (`src/types.ts`), restricted to the fields the source
fills without `parseFloat` — the four floating-point fields
(`faultyNodeProbability`, `groupLimitRate`, `culThresholdDistAlpha`,
`culThresholdDistBeta`) are outside the embedding; no claim touches them. -/
structure SimulationConfig where
  generateNetworkFromFile : Bool
  nodesFilename : List Char
  channelsFilename : List Char
  edgesFilename : List Char
  nAdditionalNodes : Option (Option Int)
  nChannelsPerNode : Option (Option Int)
  capacityPerChannel : Option (Option Int)
  generatePaymentsFromFile : Bool
  paymentTimeout : Int
  averagePaymentForwardInterval : Int
  variancePaymentForwardInterval : Int
  routingMethod : List Char
  groupSize : Int
  groupCapUpdate : Bool
  groupBroadcastDelay : Int
  paymentsFilename : List Char
  paymentRate : Int
  nPayments : Int
  averagePaymentAmount : Int
  variancePaymentAmount : Int
  averageMaxFeeLimit : Int
  varianceMaxFeeLimit : Int
  enableFakeBalanceUpdate : Bool
  mpp : Int
  maxShardCount : Int
deriving Repr, DecidableEq

/-- `parseConfig` from `dataParser.ts`: build the key/value record from the
lines, then read every field with its documented default. -/
def parseConfig (text : List Char) : SimulationConfig :=
  let cfg := lookupConfig (configPairs text)
  { generateNetworkFromFile := jsIsTrue (cfg "generate_network_from_file".data),
    nodesFilename := jsOrStr (cfg "nodes_filename".data),
    channelsFilename := jsOrStr (cfg "channels_filename".data),
    edgesFilename := jsOrStr (cfg "edges_filename".data),
    nAdditionalNodes := jsTernaryInt (cfg "n_additional_nodes".data),
    nChannelsPerNode := jsTernaryInt (cfg "n_channels_per_node".data),
    capacityPerChannel := jsTernaryInt (cfg "capacity_per_channel".data),
    generatePaymentsFromFile := jsIsTrue (cfg "generate_payments_from_file".data),
    paymentTimeout := jsOrInt (cfg "payment_timeout".data) 60000,
    averagePaymentForwardInterval :=
      jsOrInt (cfg "average_payment_forward_interval".data) 100,
    variancePaymentForwardInterval :=
      jsOrInt (cfg "variance_payment_forward_interval".data) 1,
    routingMethod := jsOrStr (cfg "routing_method".data),
    groupSize := jsOrInt (cfg "group_size".data) 5,
    groupCapUpdate := jsIsTrue (cfg "group_cap_update".data),
    groupBroadcastDelay := jsOrInt (cfg "group_broadcast_delay".data) 0,
    paymentsFilename := jsOrStr (cfg "payments_filename".data),
    paymentRate := jsOrInt (cfg "payment_rate".data) 1,
    nPayments := jsOrInt (cfg "n_payments".data) 5000,
    averagePaymentAmount := jsOrInt (cfg "average_payment_amount".data) 100,
    variancePaymentAmount := jsOrInt (cfg "variance_payment_amount".data) 10,
    averageMaxFeeLimit := jsOrInt (cfg "average_max_fee_limit".data) (-1),
    varianceMaxFeeLimit := jsOrInt (cfg "variance_max_fee_limit".data) (-1),
    enableFakeBalanceUpdate := jsIsTrue (cfg "enable_fake_balance_update".data),
    mpp := jsOrInt (cfg "mpp".data) 1,
    maxShardCount := jsOrInt (cfg "max_shard_count".data) 16 }

/-- **C9**: a config text without the `payment_timeout` key parses to the
documented default `paymentTimeout = 60000`; one without `group_size` parses
to the documented default `groupSize = 5`. -/
theorem C9_config_defaults (text : List Char)
    (h1 : lookupConfig (configPairs text) "payment_timeout".data = none)
    (h2 : lookupConfig (configPairs text) "group_size".data = none) :
    (parseConfig text).paymentTimeout = 60000 ∧ (parseConfig text).groupSize = 5 := by
  constructor
  · show jsOrInt (lookupConfig (configPairs text) "payment_timeout".data) 60000 = 60000
    rw [h1]
    rfl
  · show jsOrInt (lookupConfig (configPairs text) "group_size".data) 5 = 5
    rw [h2]
    rfl

theorem C9_config_defaults_witness :
    lookupConfig (configPairs "routing_method=cloth\nmpp=1".data)
        "payment_timeout".data = none ∧
      lookupConfig (configPairs "routing_method=cloth\nmpp=1".data)
        "group_size".data = none ∧
      ((parseConfig "routing_method=cloth\nmpp=1".data).paymentTimeout = 60000 ∧
        (parseConfig "routing_method=cloth\nmpp=1".data).groupSize = 5) :=
  ⟨by decide, by decide,
    C9_config_defaults "routing_method=cloth\nmpp=1".data (by decide) (by decide)⟩

/-- **C10**: a `payment_timeout` value that parses to `0` (such as
`payment_timeout=0`) or fails to parse (such as `payment_timeout=abc`) falls
back to the default 60000, and the parsed `paymentTimeout` is never 0 — an
explicitly configured zero is indistinguishable from a missing key. -/
theorem C10_config_zero_fallback (text : List Char) :
    (∀ v, lookupConfig (configPairs text) "payment_timeout".data = some v →
      jsParseInt v = none ∨ jsParseInt v = some 0 →
      (parseConfig text).paymentTimeout = 60000)
    ∧ (parseConfig text).paymentTimeout ≠ 0 := by
  constructor
  · intro v hv hparse
    show jsOrInt (lookupConfig (configPairs text) "payment_timeout".data) 60000 = 60000
    rw [hv]
    rcases hparse with h | h
    · simp [jsOrInt, h]
    · simp [jsOrInt, h]
  · show jsOrInt (lookupConfig (configPairs text) "payment_timeout".data) 60000 ≠ 0
    cases hv : lookupConfig (configPairs text) "payment_timeout".data with
    | none => simp [jsOrInt]
    | some v =>
      cases hp : jsParseInt v with
      | none => simp [jsOrInt, hp]
      | some n =>
        by_cases hn : n = 0
        · simp [jsOrInt, hp, hn]
        · simp [jsOrInt, hp, hn]

theorem C10_config_zero_fallback_witness :
    lookupConfig (configPairs "payment_timeout=0".data) "payment_timeout".data =
        some "0".data ∧
      jsParseInt "0".data = some 0 ∧
      (parseConfig "payment_timeout=0".data).paymentTimeout = 60000 ∧
      (parseConfig "payment_timeout=0".data).paymentTimeout ≠ 0 :=
  ⟨by decide, by decide,
    (C10_config_zero_fallback "payment_timeout=0".data).1 "0".data (by decide)
      (Or.inr (by decide)),
    (C10_config_zero_fallback "payment_timeout=0".data).2⟩

end CRV










